import Mathlib

/-!
Verification of the palmframe checkpoint store (`PostgresSaver` over the
`checkpoints` and `writes` tables, plus the per-thread checkpointer cache of
the agent runtime) against its natural-language specification.

The embedding mirrors the TypeScript source:
  * `PostgresSaver.put`, `putWrites`, `getTuple`, `list` are translated from
    the Drizzle/Postgres implementation, with the two tables modelled as row
    lists.
  * The serializer (`SerializerProtocol`) is an injected capability with
    fallible `dumpsTyped`/`loadsTyped`, modelled with `Except`.
  * SQL `ORDER BY checkpoint_id DESC` on a text column is modelled as the
    lexicographic order on the character sequence (`String.data`).
  * `INSERT ... ON CONFLICT DO UPDATE` updates every non-key column, so it is
    modelled as replacing the conflicting row.  Postgres gives no guarantee on
    the physical order in which a query *without* `ORDER BY` returns rows; its
    MVCC implementation writes a fresh row version on update, so an updated
    row can surface after rows inserted later.  The upsert is therefore
    modelled as remove-old-version-then-append, one realisable row order of
    the real engine; queries with an explicit `ORDER BY` are sorted and do not
    depend on this choice.
  * JavaScript truthiness tests on possibly-absent strings
    (`if (!threadId)`, `if (checkpointId)`, `row.parentCheckpointId ? ... :`)
    and numbers (`if (limit)`) are modelled by `truthy` / `limitTruthy`.
-/

namespace Palmframe

/-- A row of the `checkpoints` table (`src/web/src/server/db/schema.ts`):
primary key `(thread_id, checkpoint_ns, checkpoint_id)`; `type` and
`metadata` are nullable, `checkpoint` is not null. -/
structure CheckpointRow where
  threadId : String
  checkpointNs : String
  checkpointId : String
  parentCheckpointId : Option String
  type : Option String
  checkpoint : String
  metadata : Option String
deriving DecidableEq, Repr

/-- A row of the `writes` table: primary key
`(thread_id, checkpoint_ns, checkpoint_id, task_id, idx)`; `type` and `value`
are nullable. -/
structure WriteRow where
  threadId : String
  checkpointNs : String
  checkpointId : String
  taskId : String
  idx : Nat
  channel : String
  type : Option String
  value : Option String
deriving DecidableEq, Repr

/-- Primary key of a `checkpoints` row. -/
def CheckpointRow.key (r : CheckpointRow) : String × String × String :=
  (r.threadId, r.checkpointNs, r.checkpointId)

/-- Primary key of a `writes` row. -/
def WriteRow.key (r : WriteRow) : String × String × String × String × Nat :=
  (r.threadId, r.checkpointNs, r.checkpointId, r.taskId, r.idx)

/-- The database: the two tables owned by the checkpoint store. -/
structure DB where
  checkpoints : List CheckpointRow
  writes : List WriteRow
deriving DecidableEq, Repr

/-- Well-formedness: the composite primary keys really are keys (no two rows
of a table share one), which Postgres enforces. -/
def DB.WF (db : DB) : Prop :=
  db.checkpoints.Pairwise (fun a b => a.key ≠ b.key) ∧
  db.writes.Pairwise (fun a b => a.key ≠ b.key)

instance : DecidablePred DB.WF := fun db => by
  unfold DB.WF; infer_instance

/-- The `configurable` part of a `RunnableConfig` as the saver reads it:
`thread_id`, `checkpoint_ns` and `checkpoint_id`, each possibly absent. -/
structure Config where
  threadId : Option String
  checkpointNs : Option String
  checkpointId : Option String
deriving DecidableEq, Repr

/-- JavaScript truthiness of a possibly-absent string: `undefined`/`null` and
`""` are falsy. -/
def truthy : Option String → Bool
  | none => false
  | some s => !(s == "")

/-- A fully resolved config `(thread_id, checkpoint_ns, checkpoint_id)`. -/
def resolvedConfig (t ns id : String) : Config :=
  { threadId := some t, checkpointNs := some ns, checkpointId := some id }

/-- The injected serializer (`SerializerProtocol`): `dumpsTyped` produces a
`(type tag, serialized string)` pair, `loadsTyped` interprets one; either can
fail (a rejected promise in the source), modelled with `Except String`. -/
structure Serde (V : Type) where
  dumpsTyped : V → Except String (String × String)
  loadsTyped : String → String → Except String V

/-- `Promise.all` over per-element decoding: the first failure rejects the
whole operation, otherwise the results keep the list order. -/
def mapExcept (f : α → Except String β) : List α → Except String (List β)
  | [] => .ok []
  | a :: as =>
    match f a with
    | .error e => .error e
    | .ok b =>
      match mapExcept f as with
      | .error e => .error e
      | .ok bs => .ok (b :: bs)

/-- `INSERT INTO checkpoints ... ON CONFLICT (pk) DO UPDATE SET <all non-key
columns>`: any existing row version with the same key is superseded and the
fresh version appended (see the header note on physical row order). -/
def upsertCheckpoint (table : List CheckpointRow) (r : CheckpointRow) :
    List CheckpointRow :=
  table.filter (fun r0 => !(decide (r0.key = r.key))) ++ [r]

/-- `INSERT INTO writes ... ON CONFLICT (pk) DO UPDATE SET channel, type,
value` — all non-key columns, so the row is replaced. -/
def upsertWrite (table : List WriteRow) (r : WriteRow) : List WriteRow :=
  table.filter (fun r0 => !(decide (r0.key = r.key))) ++ [r]

namespace PostgresSaver

variable {V : Type}

/-- `PostgresSaver.put`: encode checkpoint and metadata (both must succeed
before anything is written), then upsert the row and return the resolved
config.  The source binds the metadata's type tag as `type2` but never stores
it: only `type1` (the checkpoint's tag) goes into the `type` column.
`threadId`/`checkpointNs` come from the caller's config (`?? ""` applied) and
`parentCheckpointId` is the config's `checkpoint_id ?? null`;
`checkpointId` is `checkpoint.id` (`copyCheckpoint` is a value-preserving
shallow copy). -/
def put (serde : Serde V) (db : DB) (threadId checkpointNs : String)
    (parentCheckpointId : Option String) (checkpointId : String)
    (checkpoint metadata : V) : Except String (DB × Config) :=
  match serde.dumpsTyped checkpoint with
  | .error e => .error e
  | .ok (type1, serializedCheckpoint) =>
  match serde.dumpsTyped metadata with
  | .error e => .error e
  | .ok (_type2, serializedMetadata) =>
  .ok ({ db with
          checkpoints := upsertCheckpoint db.checkpoints
            { threadId := threadId
              checkpointNs := checkpointNs
              checkpointId := checkpointId
              parentCheckpointId := parentCheckpointId
              type := some type1
              checkpoint := serializedCheckpoint
              metadata := some serializedMetadata } },
        resolvedConfig threadId checkpointNs checkpointId)

/-- The loop body of `putWrites`: for each write at position `idx`, encode its
value and immediately upsert the row.  An encoding failure aborts the loop —
but the rows upserted by earlier iterations stay in the table (there is no
enclosing transaction in the source). -/
def putWritesGo (serde : Serde V) (threadId checkpointNs checkpointId taskId : String)
    (table : List WriteRow) (idx : Nat) (pendingWrites : List (String × V)) :
    List WriteRow × Option String :=
  match pendingWrites with
  | [] => (table, none)
  | (channel, value) :: rest =>
    match serde.dumpsTyped value with
    | .error e => (table, some e)
    | .ok (type, serializedWrite) =>
      putWritesGo serde threadId checkpointNs checkpointId taskId
        (upsertWrite table
          { threadId := threadId
            checkpointNs := checkpointNs
            checkpointId := checkpointId
            taskId := taskId
            idx := idx
            channel := channel
            type := some type
            value := some serializedWrite })
        (idx + 1) rest

/-- `PostgresSaver.putWrites`: sequentially upsert one row per input write,
`idx` taken from the list position.  Returns the updated database and the
error of the first failed encoding, if any. -/
def putWrites (serde : Serde V) (db : DB)
    (threadId checkpointNs checkpointId taskId : String)
    (pendingWrites : List (String × V)) : DB × Option String :=
  let (table, err) :=
    putWritesGo serde threadId checkpointNs checkpointId taskId db.writes 0
      pendingWrites
  ({ db with writes := table }, err)

/-- The `writes` rows matching one exact checkpoint (all tasks, all indices);
the source query has no `ORDER BY`. -/
def writesFor (db : DB) (t ns cid : String) : List WriteRow :=
  db.writes.filter (fun w =>
    decide (w.threadId = t) && decide (w.checkpointNs = ns) &&
      decide (w.checkpointId = cid))

/-- Decode one pending-write row to a `(task_id, channel, value)` triple:
`loadsTyped(w.type ?? "json", w.value ?? "")`. -/
def decodeWrite (serde : Serde V) (w : WriteRow) :
    Except String (String × String × V) :=
  match serde.loadsTyped (w.type.getD "json") (w.value.getD "") with
  | .error e => .error e
  | .ok value => .ok (w.taskId, w.channel, value)

/-- `ORDER BY checkpoint_id DESC` as a total preorder on rows. -/
def descLE (a b : CheckpointRow) : Prop :=
  b.checkpointId.data ≤ a.checkpointId.data

instance : DecidableRel descLE := fun a b =>
  inferInstanceAs (Decidable (b.checkpointId.data ≤ a.checkpointId.data))

instance : IsTotal CheckpointRow descLE :=
  ⟨fun a b => le_total b.checkpointId.data a.checkpointId.data⟩

instance : IsTrans CheckpointRow descLE :=
  ⟨fun _ _ _ h1 h2 => le_trans h2 h1⟩

/-- The result set of a query ordered by `checkpoint_id DESC`. -/
def sortDesc (l : List CheckpointRow) : List CheckpointRow :=
  List.insertionSort descLE l

/-- `checkpoints` rows for one `(thread, namespace)`. -/
def checkpointsFor (db : DB) (t ns : String) : List CheckpointRow :=
  db.checkpoints.filter (fun r =>
    decide (r.threadId = t) && decide (r.checkpointNs = ns))

/-- `checkpoints` rows matching an exact `(thread, namespace, id)` key. -/
def exactRows (db : DB) (t ns cid : String) : List CheckpointRow :=
  db.checkpoints.filter (fun r =>
    decide (r.threadId = t) && decide (r.checkpointNs = ns) &&
      decide (r.checkpointId = cid))

/-- What `getTuple`/`list` return per checkpoint. -/
structure CheckpointTuple (V : Type) where
  checkpoint : V
  config : Config
  metadata : V
  parentConfig : Option Config
  pendingWrites : List (String × String × V)
deriving DecidableEq, Repr

/-- `PostgresSaver.getTuple`: exact lookup when a truthy `checkpoint_id` is
given, otherwise the row with the greatest id (`ORDER BY id DESC LIMIT 1`);
`undefined` (here `none`) when the thread id is falsy or no row matches.
Pending writes of the found checkpoint are decoded
(`loadsTyped(type ?? "json", value ?? "")`), the checkpoint with
`loadsTyped(row.type ?? "json", row.checkpoint)` and the metadata with
`loadsTyped(row.type ?? "json", row.metadata ?? "{}")`.  The caller's config
is echoed verbatim on exact lookup and resolved from the row otherwise;
`parentConfig` is present only for a truthy `parent_checkpoint_id`. -/
def getTuple (serde : Serde V) (db : DB) (cfg : Config) :
    Except String (Option (CheckpointTuple V)) :=
  let checkpointNs := cfg.checkpointNs.getD ""
  if truthy cfg.threadId = false then
    .ok none
  else
    let threadId := cfg.threadId.getD ""
    let rows :=
      if truthy cfg.checkpointId then
        exactRows db threadId checkpointNs (cfg.checkpointId.getD "")
      else
        (sortDesc (checkpointsFor db threadId checkpointNs)).take 1
    match rows with
    | [] => .ok none
    | row :: _ =>
      match mapExcept (decodeWrite serde)
          (writesFor db row.threadId row.checkpointNs row.checkpointId) with
      | .error e => .error e
      | .ok pendingWrites =>
      match serde.loadsTyped (row.type.getD "json") row.checkpoint with
      | .error e => .error e
      | .ok checkpoint =>
      match serde.loadsTyped (row.type.getD "json") (row.metadata.getD "{}") with
      | .error e => .error e
      | .ok metadata =>
      .ok (some
        { checkpoint := checkpoint
          config :=
            if truthy cfg.checkpointId then cfg
            else resolvedConfig row.threadId row.checkpointNs row.checkpointId
          metadata := metadata
          parentConfig :=
            if truthy row.parentCheckpointId then
              some (resolvedConfig row.threadId row.checkpointNs
                (row.parentCheckpointId.getD ""))
            else none
          pendingWrites := pendingWrites })

/-- JavaScript truthiness of the optional numeric `limit`: `undefined` and `0`
are falsy, so `if (limit) query = query.limit(limit)` skips both. -/
def limitTruthy : Option Nat → Bool
  | none => false
  | some n => !(n == 0)

/-- The effective `before` cursor: the `lt` condition is pushed only when
`before?.configurable?.checkpoint_id` is truthy. -/
def effBefore (before : Option Config) : Option String :=
  match before with
  | some b => if truthy b.checkpointId then some (b.checkpointId.getD "") else none
  | none => none

/-- The optional `lt(checkpoint_id, before)` condition of the `list` query. -/
def beforeCond (beforeId : Option String) (r : CheckpointRow) : Bool :=
  match beforeId with
  | some b => decide (r.checkpointId.data < b.data)
  | none => true

/-- The `checkpoints` query of `list`: rows of `(thread, namespace)`, further
restricted to `checkpoint_id < before` when a cursor is given, ordered by
`checkpoint_id DESC`. -/
def chainRows (db : DB) (t ns : String) (beforeId : Option String) :
    List CheckpointRow :=
  sortDesc (db.checkpoints.filter (fun r =>
    decide (r.threadId = t) && decide (r.checkpointNs = ns) &&
      beforeCond beforeId r))

/-- The per-row body of the `list` loop: decode the row's pending writes,
checkpoint and metadata exactly as `getTuple` does, but always emit the
resolved config. -/
def decodeListTuple (serde : Serde V) (db : DB) (row : CheckpointRow) :
    Except String (CheckpointTuple V) :=
  match mapExcept (decodeWrite serde)
      (writesFor db row.threadId row.checkpointNs row.checkpointId) with
  | .error e => .error e
  | .ok pendingWrites =>
  match serde.loadsTyped (row.type.getD "json") row.checkpoint with
  | .error e => .error e
  | .ok checkpoint =>
  match serde.loadsTyped (row.type.getD "json") (row.metadata.getD "{}") with
  | .error e => .error e
  | .ok metadata =>
  .ok
    { checkpoint := checkpoint
      config := resolvedConfig row.threadId row.checkpointNs row.checkpointId
      metadata := metadata
      parentConfig :=
        if truthy row.parentCheckpointId then
          some (resolvedConfig row.threadId row.checkpointNs
            (row.parentCheckpointId.getD ""))
        else none
      pendingWrites := pendingWrites }

/-- `PostgresSaver.list`: nothing for a falsy thread id; otherwise the
`(thread, namespace)` rows below the optional `before` cursor, newest first,
truncated by a truthy `limit`, each decoded to a tuple. -/
def list (serde : Serde V) (db : DB) (cfg : Config) (limit : Option Nat)
    (before : Option Config) : Except String (List (CheckpointTuple V)) :=
  if truthy cfg.threadId = false then
    .ok []
  else
    let t := cfg.threadId.getD ""
    let ns := cfg.checkpointNs.getD ""
    let rows := chainRows db t ns (effBefore before)
    let rows := if limitTruthy limit then rows.take (limit.getD 0) else rows
    mapExcept (decodeListTuple serde db) rows

end PostgresSaver

namespace Runtime

/-- The module-level per-thread checkpointer cache of
`src/src/main/agent/runtime.ts`: a `Map` from thread id to an open
`SqlJsSaver` handle, plus a counter standing for "open a fresh handle"
(`new SqlJsSaver(dbPath)` + `initialize()`), so distinct opens are
distinguishable.  The `Map` is modelled as an association list whose keys are
unique, `get` as first-match lookup, `set` of a fresh key as append and
`delete` as removal of the entry. -/
structure State where
  checkpointers : List (String × Nat)
  nextHandle : Nat
deriving DecidableEq, Repr

/-- `checkpointers.get(threadId)`. -/
def State.lookup (st : State) (threadId : String) : Option Nat :=
  (st.checkpointers.find? (fun p => p.1 == threadId)).map (·.2)

/-- `getCheckpointer`: return the cached handle if present; otherwise open a
fresh handle, cache it and return it. -/
def getCheckpointer (st : State) (threadId : String) : Nat × State :=
  match st.lookup threadId with
  | some h => (h, st)
  | none =>
    (st.nextHandle,
      { checkpointers := st.checkpointers ++ [(threadId, st.nextHandle)]
        nextHandle := st.nextHandle + 1 })

/-- `closeCheckpointer`: close and evict the cached handle if present; do
nothing otherwise. -/
def closeCheckpointer (st : State) (threadId : String) : State :=
  match st.lookup threadId with
  | some _ =>
    { checkpointers := st.checkpointers.filter (fun p => !(p.1 == threadId))
      nextHandle := st.nextHandle }
  | none => st

/-- Cache well-formedness: at most one entry per thread id (a `Map` cannot
hold two entries with the same key). -/
def State.WF (st : State) : Prop :=
  st.checkpointers.Pairwise (fun a b => a.1 ≠ b.1)

end Runtime

/-! ### Concrete serializers used to evaluate the model on closed inputs -/

/-- A serializer on plain strings whose decode is a left inverse of its
encode: every value is tagged `"json"` and carried verbatim. -/
def strSerde : Serde String :=
  { dumpsTyped := fun v => .ok ("json", v)
    loadsTyped := fun _ s => .ok s }

/-- A serializer on `(tag, payload)` pairs that emits the value's own tag.
Its decode is a left inverse of its encode, but different values may carry
different tags. -/
def pairSerde : Serde (String × String) :=
  { dumpsTyped := fun v => .ok (v.1, v.2)
    loadsTyped := fun t s => .ok (t, s) }

/-- A serializer on optional strings that fails to encode `none` — a value
the injected serializer cannot serialize. -/
def optSerde : Serde (Option String) :=
  { dumpsTyped := fun v =>
      match v with
      | some s => .ok ("json", s)
      | none => .error "unserializable"
    loadsTyped := fun _ s => .ok (some s) }

/-! ### General lemmas about the embedding's building blocks -/

theorem truthy_some_of_ne {s : String} (h : s ≠ "") : truthy (some s) = true := by
  simp [truthy, h]

theorem mapExcept_eq_ok_iff {α β : Type _} (f : α → Except String β)
    (l : List α) (ys : List β) :
    mapExcept f l = .ok ys ↔ List.Forall₂ (fun a b => f a = .ok b) l ys := by
  induction l generalizing ys with
  | nil =>
    constructor
    · intro h
      obtain rfl : ([] : List β) = ys := by simpa [mapExcept] using h
      exact List.Forall₂.nil
    · intro h
      cases h
      rfl
  | cons a as ih =>
    constructor
    · intro h
      simp only [mapExcept] at h
      cases hfa : f a with
      | error e => rw [hfa] at h; exact absurd h (by simp)
      | ok b =>
        rw [hfa] at h
        cases hrest : mapExcept f as with
        | error e => rw [hrest] at h; exact absurd h (by simp)
        | ok bs =>
          rw [hrest] at h
          obtain rfl : b :: bs = ys := by simpa using h
          exact List.Forall₂.cons hfa ((ih bs).1 hrest)
    · intro h
      cases h with
      | cons hab hrest =>
        simp only [mapExcept]
        rw [hab, (ih _).2 hrest]

theorem mapExcept_ok_of_forall₂ {α β : Type _} {f : α → Except String β}
    {l : List α} {ys : List β}
    (h : List.Forall₂ (fun a b => f a = .ok b) l ys) : mapExcept f l = .ok ys :=
  (mapExcept_eq_ok_iff f l ys).2 h

theorem forall₂_of_mapExcept_ok {α β : Type _} {f : α → Except String β}
    {l : List α} {ys : List β}
    (h : mapExcept f l = .ok ys) : List.Forall₂ (fun a b => f a = .ok b) l ys :=
  (mapExcept_eq_ok_iff f l ys).1 h

theorem forall₂_map_eq {α β γ : Type _} {R : α → β → Prop} {l₁ : List α}
    {l₂ : List β} (h : List.Forall₂ R l₁ l₂) (f : α → γ) (g : β → γ)
    (hfg : ∀ a b, R a b → f a = g b) : l₁.map f = l₂.map g := by
  induction h with
  | nil => rfl
  | cons hab _ ih => simp [hfg _ _ hab, ih]

theorem forall₂_comp {α β γ : Type _} {R : α → β → Prop} {S : β → γ → Prop}
    {l₁ : List α} {l₂ : List β} {l₃ : List γ}
    (h₁ : List.Forall₂ R l₁ l₂) (h₂ : List.Forall₂ S l₂ l₃) :
    List.Forall₂ (fun a c => ∃ b, R a b ∧ S b c) l₁ l₃ := by
  induction h₁ generalizing l₃ with
  | nil => cases h₂; exact List.Forall₂.nil
  | cons hab _ ih =>
    cases h₂ with
    | cons hbc hrest => exact List.Forall₂.cons ⟨_, hab, hbc⟩ (ih hrest)

theorem filter_upsertCheckpoint_key (table : List CheckpointRow)
    (r : CheckpointRow) :
    (upsertCheckpoint table r).filter (fun r0 => decide (r0.key = r.key)) = [r] := by
  unfold upsertCheckpoint
  rw [List.filter_append, List.filter_filter]
  simp

theorem filter_upsertWrite_key (table : List WriteRow) (r : WriteRow) :
    (upsertWrite table r).filter (fun r0 => decide (r0.key = r.key)) = [r] := by
  unfold upsertWrite
  rw [List.filter_append, List.filter_filter]
  simp

theorem filter_upsertWrite_other (table : List WriteRow) (r : WriteRow)
    (k : String × String × String × String × Nat) (hk : k ≠ r.key) :
    (upsertWrite table r).filter (fun r0 => decide (r0.key = k)) =
      table.filter (fun r0 => decide (r0.key = k)) := by
  unfold upsertWrite
  rw [List.filter_append, List.filter_filter]
  have hrk : ¬ (r.key = k) := fun h => hk h.symm
  have h2 : [r].filter (fun r0 => decide (r0.key = k)) = [] := by
    simp [List.filter, hrk]
  rw [h2, List.append_nil]
  apply List.filter_congr
  intro w _
  by_cases hw : w.key = k
  · have hwr : ¬ w.key = r.key := fun h => hk (hw ▸ h ▸ rfl)
    simp [hw, hwr, hk]
  · simp [hw]

/-! ### Lemmas about `putWrites` -/

namespace PostgresSaver

variable {V : Type}

theorem upsertWrite_of_fresh {table : List WriteRow} {r : WriteRow}
    (h : ∀ w ∈ table, w.key ≠ r.key) : upsertWrite table r = table ++ [r] := by
  unfold upsertWrite
  congr 1
  apply List.filter_eq_self.2
  intro w hw
  simp [h w hw]

/-- If `putWrites`'s loop fails, it fails at the first write whose encoding
fails, and the table it leaves behind is exactly the table produced by
committing the writes before that position. -/
theorem putWritesGo_error_prefix (serde : Serde V)
    (t ns cid task : String) :
    ∀ (ws : List (String × V)) (table : List WriteRow) (idx : Nat)
      (tbl : List WriteRow) (e : String),
      putWritesGo serde t ns cid task table idx ws = (tbl, some e) →
      ∃ i, ∃ hi : i < ws.length,
        serde.dumpsTyped (ws.get ⟨i, hi⟩).2 = .error e ∧
        (∀ j (hj : j < i), (serde.dumpsTyped (ws.get ⟨j, hj.trans hi⟩).2).isOk = true) ∧
        putWritesGo serde t ns cid task table idx (ws.take i) = (tbl, none)
  | [], table, idx, tbl, e => by
    intro h
    simp [putWritesGo] at h
  | (ch, v) :: rest, table, idx, tbl, e => by
    intro h
    simp only [putWritesGo] at h
    cases hd : serde.dumpsTyped v with
    | error e0 =>
      rw [hd] at h
      obtain ⟨rfl, rfl⟩ : table = tbl ∧ e0 = e := by
        constructor <;> [exact congrArg Prod.fst h; exact Option.some.inj (congrArg Prod.snd h)]
      refine ⟨0, Nat.succ_pos _, hd, ?_, rfl⟩
      intro j hj
      exact absurd hj (Nat.not_lt_zero j)
    | ok p =>
      obtain ⟨ty, s⟩ := p
      rw [hd] at h
      obtain ⟨i, hi, hfail, hpre, htake⟩ :=
        putWritesGo_error_prefix serde t ns cid task rest _ (idx + 1) tbl e h
      refine ⟨i + 1, Nat.succ_lt_succ hi, hfail, ?_, ?_⟩
      · intro j hj
        cases j with
        | zero =>
          show (serde.dumpsTyped v).isOk = true
          rw [hd]
          rfl
        | succ j0 => exact hpre j0 (Nat.lt_of_succ_lt_succ hj)
      · simp only [List.take_succ_cons, putWritesGo, hd]
        exact htake

/-- Keys not in the written range `[idx, idx + |ws|)` of the task are left
untouched by the loop. -/
theorem putWritesGo_ok_other (serde : Serde V) (t ns cid task : String) :
    ∀ (ws : List (String × V)) (table : List WriteRow) (idx : Nat)
      (tbl : List WriteRow),
      putWritesGo serde t ns cid task table idx ws = (tbl, none) →
      ∀ k : String × String × String × String × Nat,
        (∀ j, j < ws.length → k ≠ (t, ns, cid, task, idx + j)) →
        tbl.filter (fun w => decide (w.key = k)) =
          table.filter (fun w => decide (w.key = k))
  | [], table, idx, tbl => by
    intro h k _
    obtain rfl : table = tbl := congrArg Prod.fst h
    rfl
  | (ch, v) :: rest, table, idx, tbl => by
    intro h k hk
    simp only [putWritesGo] at h
    cases hd : serde.dumpsTyped v with
    | error e0 => rw [hd] at h; exact absurd (congrArg Prod.snd h) (by simp)
    | ok p =>
      obtain ⟨ty, s⟩ := p
      rw [hd] at h
      have hrec := putWritesGo_ok_other serde t ns cid task rest _ (idx + 1) tbl h k
        (fun j hj => by
          have := hk (j + 1) (Nat.succ_lt_succ hj)
          simpa [Nat.add_assoc, Nat.add_comm 1 j] using this)
      rw [hrec]
      apply filter_upsertWrite_other
      have := hk 0 (Nat.succ_pos _)
      simpa [WriteRow.key] using this

/-- Every position `j` of a successful `putWrites` loop run ends up as exactly
one row, keyed `(t, ns, cid, task, idx + j)`, holding the encoding of the
`j`-th input write. -/
theorem putWritesGo_ok_at (serde : Serde V) (t ns cid task : String) :
    ∀ (ws : List (String × V)) (table : List WriteRow) (idx : Nat)
      (tbl : List WriteRow),
      putWritesGo serde t ns cid task table idx ws = (tbl, none) →
      ∀ j (hj : j < ws.length), ∃ ty s,
        serde.dumpsTyped (ws.get ⟨j, hj⟩).2 = .ok (ty, s) ∧
        tbl.filter (fun w => decide (w.key = (t, ns, cid, task, idx + j))) =
          [{ threadId := t, checkpointNs := ns, checkpointId := cid,
             taskId := task, idx := idx + j, channel := (ws.get ⟨j, hj⟩).1,
             type := some ty, value := some s }]
  | [], _, _, _ => by
    intro _ j hj
    exact absurd hj (Nat.not_lt_zero j)
  | (ch, v) :: rest, table, idx, tbl => by
    intro h j hj
    simp only [putWritesGo] at h
    cases hd : serde.dumpsTyped v with
    | error e0 => rw [hd] at h; exact absurd (congrArg Prod.snd h) (by simp)
    | ok p =>
      obtain ⟨ty, s⟩ := p
      rw [hd] at h
      cases j with
      | zero =>
        refine ⟨ty, s, hd, ?_⟩
        have hother := putWritesGo_ok_other serde t ns cid task rest _ (idx + 1) tbl h
          (t, ns, cid, task, idx + 0)
          (fun j0 hj0 => by
            intro hcontra
            have : idx + 0 = idx + 1 + j0 := by
              have := congrArg (fun q : String × String × String × String × Nat =>
                q.2.2.2.2) hcontra
              simpa using this
            omega)
        rw [hother]
        have := filter_upsertWrite_key table
          { threadId := t, checkpointNs := ns, checkpointId := cid,
            taskId := task, idx := idx, channel := ch,
            type := some ty, value := some s }
        simpa [WriteRow.key, Nat.add_zero] using this
      | succ j0 =>
        have hrec := putWritesGo_ok_at serde t ns cid task rest _ (idx + 1) tbl h
          j0 (Nat.lt_of_succ_lt_succ hj)
        obtain ⟨ty0, s0, hd0, hf0⟩ := hrec
        refine ⟨ty0, s0, hd0, ?_⟩
        have heq : idx + 1 + j0 = idx + (j0 + 1) := by omega
        rw [heq] at hf0
        exact hf0

/-- On a table whose `(t, ns, cid, task)` rows all have index below `idx`, a
successful loop run appends its fresh rows in input order: the new rows carry
indices `idx, idx+1, ...` and the encodings of the inputs, in order. -/
theorem putWritesGo_fresh (serde : Serde V) (t ns cid task : String) :
    ∀ (ws : List (String × V)) (table : List WriteRow) (idx : Nat)
      (tbl : List WriteRow),
      putWritesGo serde t ns cid task table idx ws = (tbl, none) →
      (∀ w ∈ table, ¬(w.threadId = t ∧ w.checkpointNs = ns ∧
        w.checkpointId = cid ∧ w.taskId = task ∧ idx ≤ w.idx)) →
      ∃ rows, tbl = table ++ rows ∧
        List.Forall₂ (fun (p : (String × V) × Nat) row =>
          ∃ ty s, serde.dumpsTyped p.1.2 = .ok (ty, s) ∧
            row = { threadId := t, checkpointNs := ns, checkpointId := cid,
                    taskId := task, idx := p.2, channel := p.1.1,
                    type := some ty, value := some s })
          (ws.zip (List.range' idx ws.length)) rows
  | [], table, idx, tbl => by
    intro h _
    obtain rfl : table = tbl := congrArg Prod.fst h
    exact ⟨[], by simp, by simp⟩
  | (ch, v) :: rest, table, idx, tbl => by
    intro h hfresh
    simp only [putWritesGo] at h
    cases hd : serde.dumpsTyped v with
    | error e0 => rw [hd] at h; exact absurd (congrArg Prod.snd h) (by simp)
    | ok p =>
      obtain ⟨ty, s⟩ := p
      rw [hd] at h
      set row : WriteRow :=
        { threadId := t, checkpointNs := ns, checkpointId := cid,
          taskId := task, idx := idx, channel := ch,
          type := some ty, value := some s } with hrow
      have hup : upsertWrite table row = table ++ [row] := by
        apply upsertWrite_of_fresh
        intro w hw hkey
        apply hfresh w hw
        have h1 := congrArg (fun q : String × String × String × String × Nat => q.1) hkey
        have h2 := congrArg (fun q : String × String × String × String × Nat => q.2.1) hkey
        have h3 := congrArg (fun q : String × String × String × String × Nat => q.2.2.1) hkey
        have h4 := congrArg (fun q : String × String × String × String × Nat => q.2.2.2.1) hkey
        have h5 := congrArg (fun q : String × String × String × String × Nat => q.2.2.2.2) hkey
        simp only [WriteRow.key] at h1 h2 h3 h4 h5
        exact ⟨h1, h2, h3, h4, le_of_eq h5.symm⟩
      have hfresh2 : ∀ w ∈ table ++ [row], ¬(w.threadId = t ∧ w.checkpointNs = ns ∧
          w.checkpointId = cid ∧ w.taskId = task ∧ idx + 1 ≤ w.idx) := by
        intro w hw
        rcases List.mem_append.1 hw with hw | hw
        · intro hc
          exact hfresh w hw ⟨hc.1, hc.2.1, hc.2.2.1, hc.2.2.2.1, by omega⟩
        · have : w = row := by simpa using hw
          subst this
          rintro ⟨-, -, -, -, hle⟩
          simp [hrow] at hle
      have h2 : putWritesGo serde t ns cid task (upsertWrite table row)
          (idx + 1) rest = (tbl, none) := h
      rw [hup] at h2
      obtain ⟨rows0, heq, hrel⟩ :=
        putWritesGo_fresh serde t ns cid task rest _ (idx + 1) tbl h2 hfresh2
      refine ⟨row :: rows0, by simpa using heq, ?_⟩
      have hzip : ((ch, v) :: rest).zip (List.range' idx (((ch, v) :: rest).length)) =
          ((ch, v), idx) :: rest.zip (List.range' (idx + 1) rest.length) := by
        simp [List.range']
      rw [hzip]
      refine List.Forall₂.cons ?_ hrel
      exact ⟨ty, s, hd, hrow⟩

end PostgresSaver

/-! ### Lemmas about the sorted chain queries -/

namespace PostgresSaver

variable {V : Type}

/-- Key of a row in the `checkpoint_id DESC` order. -/
def idData (r : CheckpointRow) : List Char := r.checkpointId.data

theorem string_eq_of_data_eq {a b : String} (h : a.data = b.data) : a = b := by
  cases a
  cases b
  exact congrArg String.mk h

theorem sorted_sortDesc (l : List CheckpointRow) :
    List.Sorted descLE (sortDesc l) :=
  List.sorted_insertionSort descLE l

theorem mem_sortDesc {x : CheckpointRow} {l : List CheckpointRow} :
    x ∈ sortDesc l ↔ x ∈ l :=
  List.mem_insertionSort descLE

theorem mem_chainRows {x : CheckpointRow} {db : DB} {t ns : String}
    {b? : Option String} :
    x ∈ chainRows db t ns b? ↔
      x ∈ db.checkpoints ∧ x.threadId = t ∧ x.checkpointNs = ns ∧
        beforeCond b? x = true := by
  simp only [chainRows, mem_sortDesc, List.mem_filter, Bool.and_eq_true,
    decide_eq_true_eq]
  tauto

theorem pairwise_key_ne_chainRows {db : DB} (hWF : db.WF) (t ns : String)
    (b? : Option String) :
    (chainRows db t ns b?).Pairwise (fun a b => a.key ≠ b.key) := by
  have h1 : (db.checkpoints.filter (fun r =>
      decide (r.threadId = t) && decide (r.checkpointNs = ns) &&
        beforeCond b? r)).Pairwise (fun a b => a.key ≠ b.key) :=
    List.Pairwise.filter _ hWF.1
  have hperm := List.perm_insertionSort descLE
    (db.checkpoints.filter (fun r =>
      decide (r.threadId = t) && decide (r.checkpointNs = ns) &&
        beforeCond b? r))
  exact (hperm.pairwise_iff (fun h => h ∘ Eq.symm)).2 h1

/-- Under the primary-key invariant, the rows of a chain query are strictly
descending in `checkpoint_id`. -/
theorem strict_chainRows {db : DB} (hWF : db.WF) (t ns : String)
    (b? : Option String) :
    (chainRows db t ns b?).Pairwise (fun a b => idData b < idData a) := by
  have hs : (chainRows db t ns b?).Pairwise descLE := sorted_sortDesc _
  have hk := pairwise_key_ne_chainRows hWF t ns b?
  refine (hs.and hk).imp_of_mem ?_
  intro a b ha hb hab
  obtain ⟨hle, hkne⟩ := hab
  have ha' := mem_chainRows.1 ha
  have hb' := mem_chainRows.1 hb
  have hne : idData b ≠ idData a := by
    intro hdata
    apply hkne
    have hid : b.checkpointId = a.checkpointId := string_eq_of_data_eq hdata
    unfold CheckpointRow.key
    rw [ha'.2.1, ha'.2.2.1, hb'.2.1, hb'.2.2.1, hid]
  exact lt_of_le_of_ne hle hne

/-- Two lists that are strictly descending under the same key and have the
same members are equal. -/
theorem strictSorted_eq {α β : Type _} [LinearOrder β] (f : α → β) :
    ∀ (l₁ l₂ : List α), l₁.Pairwise (fun a b => f b < f a) →
      l₂.Pairwise (fun a b => f b < f a) → (∀ x, x ∈ l₁ ↔ x ∈ l₂) → l₁ = l₂
  | [], l₂, _, _, hm => by
    cases l₂ with
    | nil => rfl
    | cons b l₂ => exact absurd ((hm b).2 (List.mem_cons_self b l₂)) (List.not_mem_nil b)
  | a :: l₁, l₂, h₁, h₂, hm => by
    cases l₂ with
    | nil => exact absurd ((hm a).1 (List.mem_cons_self a l₁)) (List.not_mem_nil a)
    | cons b l₂ =>
      obtain ⟨ha₁, hl₁⟩ := List.pairwise_cons.1 h₁
      obtain ⟨hb₂, hl₂⟩ := List.pairwise_cons.1 h₂
      have hab : a = b := by
        rcases List.mem_cons.1 ((hm a).1 (List.mem_cons_self a l₁)) with h | h
        · exact h
        · have hfa : f a < f b := hb₂ a h
          rcases List.mem_cons.1 ((hm b).2 (List.mem_cons_self b l₂)) with h' | h'
          · exact h'.symm
          · exact absurd (ha₁ b h') (lt_asymm hfa)
      subst hab
      have hm' : ∀ x, x ∈ l₁ ↔ x ∈ l₂ := by
        intro x
        constructor
        · intro hx
          rcases List.mem_cons.1 ((hm x).1 (List.mem_cons_of_mem a hx)) with h | h
          · exact absurd (h ▸ ha₁ x hx) (lt_irrefl _)
          · exact h
        · intro hx
          rcases List.mem_cons.1 ((hm x).2 (List.mem_cons_of_mem a hx)) with h | h
          · exact absurd (h ▸ hb₂ x hx) (lt_irrefl _)
          · exact h
      rw [strictSorted_eq f l₁ l₂ hl₁ hl₂ hm']

/-- In a strictly descending list, the elements below the `n`-th element's key
are exactly the elements after position `n`. -/
theorem strict_filter_lt_drop {α β : Type _} [LinearOrder β] (f : α → β) :
    ∀ (l : List α), l.Pairwise (fun a b => f b < f a) →
      ∀ (n : Nat) (hn : n < l.length),
        l.filter (fun x => decide (f x < f (l.get ⟨n, hn⟩))) = l.drop (n + 1)
  | [], _, n, hn => absurd hn (Nat.not_lt_zero n)
  | a :: l, h, n, hn => by
    obtain ⟨ha, hl⟩ := List.pairwise_cons.1 h
    cases n with
    | zero =>
      have hhead : decide (f a < f ((a :: l).get ⟨0, hn⟩)) = false :=
        decide_eq_false (lt_irrefl _)
      rw [List.filter_cons, hhead]
      simp only [if_neg (by simp : ¬ (false = true)), List.drop_succ_cons,
        List.drop_zero]
      apply List.filter_eq_self.2
      intro x hx
      exact decide_eq_true (ha x hx)
    | succ n0 =>
      have hget : (a :: l).get ⟨n0 + 1, hn⟩ = l.get ⟨n0, Nat.lt_of_succ_lt_succ hn⟩ := rfl
      have hhead : decide (f a < f ((a :: l).get ⟨n0 + 1, hn⟩)) = false := by
        rw [hget]
        have := ha _ (l.get_mem n0 (Nat.lt_of_succ_lt_succ hn))
        exact decide_eq_false (lt_asymm this)
      rw [List.filter_cons, hhead]
      simp only [if_neg (by simp : ¬ (false = true)), List.drop_succ_cons]
      rw [show (fun x => decide (f x < f ((a :: l).get ⟨n0 + 1, hn⟩))) =
          (fun x => decide (f x < f (l.get ⟨n0, Nat.lt_of_succ_lt_succ hn⟩))) from by
        rw [hget]]
      exact strict_filter_lt_drop f l hl n0 (Nat.lt_of_succ_lt_succ hn)

/-- A `before` cursor is the same as filtering the unbounded chain. -/
theorem chainRows_some_eq_filter {db : DB} (hWF : db.WF) (t ns b : String) :
    chainRows db t ns (some b) =
      (chainRows db t ns none).filter (fun r => decide (r.checkpointId.data < b.data)) := by
  apply strictSorted_eq idData
  · exact strict_chainRows hWF t ns (some b)
  · exact List.Pairwise.filter _ (strict_chainRows hWF t ns none)
  · intro x
    simp only [List.mem_filter, mem_chainRows, beforeCond, decide_eq_true_eq]
    tauto

/-- Resuming the chain from the `n`-th returned checkpoint id yields exactly
the rows after position `n`. -/
theorem chainRows_cursor_drop {db : DB} (hWF : db.WF) (t ns : String)
    (b? : Option String) (n : Nat) (hn : n < (chainRows db t ns b?).length) :
    chainRows db t ns
        (some (((chainRows db t ns b?).get ⟨n, hn⟩).checkpointId)) =
      (chainRows db t ns b?).drop (n + 1) := by
  set L := chainRows db t ns b? with hL
  set c := (L.get ⟨n, hn⟩).checkpointId with hc
  have hdrop : L.filter (fun x => decide (idData x < idData (L.get ⟨n, hn⟩))) =
      L.drop (n + 1) :=
    strict_filter_lt_drop idData L (strict_chainRows hWF t ns b?) n hn
  rw [← hdrop]
  apply strictSorted_eq idData
  · exact strict_chainRows hWF t ns (some c)
  · exact List.Pairwise.filter _ (strict_chainRows hWF t ns b?)
  · intro x
    have hmemL : L.get ⟨n, hn⟩ ∈ L := L.get_mem n hn
    have hmem2 : L.get ⟨n, hn⟩ ∈ chainRows db t ns b? := by
      rw [← hL]
      exact hmemL
    have hcond := (mem_chainRows.1 hmem2).2.2.2
    simp only [List.mem_filter, mem_chainRows, beforeCond, decide_eq_true_eq, hL]
    constructor
    · rintro ⟨hdb, ht, hns, hlt⟩
      refine ⟨⟨hdb, ht, hns, ?_⟩, hlt⟩
      cases b? with
      | none => rfl
      | some b0 =>
        simp only [beforeCond, decide_eq_true_eq] at hcond
        exact decide_eq_true (lt_trans hlt hcond)
    · rintro ⟨⟨hdb, ht, hns, _⟩, hlt⟩
      exact ⟨hdb, ht, hns, hlt⟩

end PostgresSaver

/-! ### Lemmas about `list` and its decoded tuples -/

namespace PostgresSaver

variable {V : Type}

/-- The checkpoint id a returned tuple's resolved config points at. -/
def tupleId (tp : CheckpointTuple V) : String :=
  tp.config.checkpointId.getD ""

theorem list_of_truthy (serde : Serde V) (db : DB) {tid : Option String}
    (h : truthy tid = true) (ns? cid? : Option String) (limit : Option Nat)
    (before : Option Config) :
    list serde db { threadId := tid, checkpointNs := ns?, checkpointId := cid? }
        limit before =
      mapExcept (decodeListTuple serde db)
        (if limitTruthy limit then
          (chainRows db (tid.getD "") (ns?.getD "") (effBefore before)).take
            (limit.getD 0)
         else chainRows db (tid.getD "") (ns?.getD "") (effBefore before)) := by
  simp [list, h]

theorem decodeListTuple_ok_config {serde : Serde V} {db : DB}
    {row : CheckpointRow} {tp : CheckpointTuple V}
    (h : decodeListTuple serde db row = .ok tp) :
    tp.config = resolvedConfig row.threadId row.checkpointNs row.checkpointId := by
  unfold decodeListTuple at h
  cases h1 : mapExcept (decodeWrite serde)
      (writesFor db row.threadId row.checkpointNs row.checkpointId) with
  | error e => rw [h1] at h; exact absurd h (by simp)
  | ok pws =>
    rw [h1] at h
    cases h2 : serde.loadsTyped (row.type.getD "json") row.checkpoint with
    | error e => rw [h2] at h; exact absurd h (by simp)
    | ok cp =>
      rw [h2] at h
      cases h3 : serde.loadsTyped (row.type.getD "json") (row.metadata.getD "{}") with
      | error e => rw [h3] at h; exact absurd h (by simp)
      | ok md =>
        rw [h3] at h
        obtain rfl := Except.ok.inj h
        rfl

theorem forall₂_mem_right {α β : Type _} {R : α → β → Prop} {l₁ : List α}
    {l₂ : List β} (h : List.Forall₂ R l₁ l₂) :
    ∀ b ∈ l₂, ∃ a ∈ l₁, R a b := by
  induction h with
  | nil => intro b hb; exact absurd hb (List.not_mem_nil b)
  | cons hab _ ih =>
    intro b hb
    rcases List.mem_cons.1 hb with rfl | hb
    · exact ⟨_, List.mem_cons_self _ _, hab⟩
    · obtain ⟨a, ha, hr⟩ := ih b hb
      exact ⟨a, List.mem_cons_of_mem _ ha, hr⟩

theorem forall₂_zip_left {α β γ : Type _} {l : List α} {aux : List γ}
    {l₃ : List β} {S : α × γ → β → Prop} :
    ∀ (hlen : l.length ≤ aux.length)
      (h : List.Forall₂ S (l.zip aux) l₃),
      List.Forall₂ (fun a b => ∃ x, S (a, x) b) l l₃ := by
  induction l generalizing aux l₃ with
  | nil =>
    intro _ h
    cases h
    exact List.Forall₂.nil
  | cons a l ih =>
    intro hlen h
    cases aux with
    | nil => simp at hlen
    | cons x aux =>
      simp only [List.zip_cons_cons] at h
      cases h with
      | cons hhead htail =>
        exact List.Forall₂.cons ⟨x, hhead⟩ (ih (by simpa using hlen) htail)

/-- The ids of successfully decoded tuples are the ids of the underlying rows,
in order. -/
theorem listTuples_map_id {serde : Serde V} {db : DB}
    {rows : List CheckpointRow} {ts : List (CheckpointTuple V)}
    (h : mapExcept (decodeListTuple serde db) rows = .ok ts) :
    ts.map tupleId = rows.map (fun r => r.checkpointId) := by
  have hf := forall₂_of_mapExcept_ok h
  refine (forall₂_map_eq hf (fun r => r.checkpointId) tupleId ?_).symm
  intro row tp hr
  rw [tupleId, decodeListTuple_ok_config hr]
  rfl

end PostgresSaver

/-! ### Claim theorems -/

open PostgresSaver

/-- C9: an explicit `limit` of 0 is falsy in `if (limit)`, so it is never
applied: `list` with limit 0 behaves exactly like `list` with the limit
omitted, returning the full chain. -/
theorem c9_limit_zero_unbounded (V : Type) (serde : Serde V) (db : DB)
    (cfg : Config) (before : Option Config) :
    list serde db cfg (some 0) before = list serde db cfg none before := rfl

/-- C7: on a thread with no committed checkpoints in the namespace,
`getTuple` returns an empty result (`none`, not an error) and `list` returns
an empty sequence (not an error), for any limit and cursor. -/
theorem c7_empty_chain (V : Type) (serde : Serde V) (db : DB) (t ns : String)
    (ht : t ≠ "")
    (hempty : ∀ r ∈ db.checkpoints, ¬(r.threadId = t ∧ r.checkpointNs = ns))
    (limit : Option Nat) (before : Option Config) :
    getTuple serde db
        { threadId := some t, checkpointNs := some ns, checkpointId := none } =
      .ok none ∧
    list serde db
        { threadId := some t, checkpointNs := some ns, checkpointId := none }
        limit before = .ok [] := by
  have hfor : checkpointsFor db t ns = [] := by
    apply List.filter_eq_nil.2
    intro r hr
    intro hc
    rw [Bool.and_eq_true] at hc
    exact hempty r hr ⟨of_decide_eq_true hc.1, of_decide_eq_true hc.2⟩
  have hchain : ∀ b?, chainRows db t ns b? = [] := by
    intro b?
    unfold chainRows
    have : db.checkpoints.filter (fun r =>
        decide (r.threadId = t) && decide (r.checkpointNs = ns) &&
          beforeCond b? r) = [] := by
      apply List.filter_eq_nil.2
      intro r hr hc
      rw [Bool.and_eq_true, Bool.and_eq_true] at hc
      exact hempty r hr ⟨of_decide_eq_true hc.1.1, of_decide_eq_true hc.1.2⟩
    rw [this]
    rfl
  constructor
  · simp [getTuple, truthy_some_of_ne ht, truthy, hfor, sortDesc,
      List.insertionSort]
  · rw [list_of_truthy serde db (truthy_some_of_ne ht)]
    simp only [Option.getD_some]
    rw [hchain]
    cases hl : limitTruthy limit <;> simp [mapExcept]

/-- C4: `put` is an upsert keyed by `(thread, namespace, checkpoint id)`:
after two `put` calls with the same id, exactly one row carries that key, and
it holds the parent, type, payload and metadata of the second call. -/
theorem c4_put_upsert_idempotent (V : Type) (serde : Serde V) (db db1 db2 : DB)
    (t ns : String) (p1 p2 : Option String) (cid : String)
    (cp1 md1 cp2 md2 : V) (cfg1 cfg2 : Config)
    (h1 : put serde db t ns p1 cid cp1 md1 = .ok (db1, cfg1))
    (h2 : put serde db1 t ns p2 cid cp2 md2 = .ok (db2, cfg2))
    (ty2 s2 tym sm : String)
    (hd2 : serde.dumpsTyped cp2 = .ok (ty2, s2))
    (hdm : serde.dumpsTyped md2 = .ok (tym, sm)) :
    db2.checkpoints.filter
        (fun r => decide (r.key = (t, ns, cid))) =
      [{ threadId := t, checkpointNs := ns, checkpointId := cid,
         parentCheckpointId := p2, type := some ty2, checkpoint := s2,
         metadata := some sm }] ∧
    (db2.checkpoints.filter (fun r => decide (r.key = (t, ns, cid)))).length = 1 := by
  unfold put at h2
  rw [hd2, hdm] at h2
  obtain ⟨rfl, -⟩ : ({ db1 with
      checkpoints := upsertCheckpoint db1.checkpoints
        { threadId := t, checkpointNs := ns, checkpointId := cid,
          parentCheckpointId := p2, type := some ty2, checkpoint := s2,
          metadata := some sm } } : DB) = db2 ∧
      resolvedConfig t ns cid = cfg2 := by
    refine ⟨congrArg Prod.fst (Except.ok.inj h2), congrArg Prod.snd (Except.ok.inj h2)⟩
  have hkey := filter_upsertCheckpoint_key db1.checkpoints
    { threadId := t, checkpointNs := ns, checkpointId := cid,
      parentCheckpointId := p2, type := some ty2, checkpoint := s2,
      metadata := some sm }
  rw [show CheckpointRow.key
        { threadId := t, checkpointNs := ns, checkpointId := cid,
          parentCheckpointId := p2, type := some ty2, checkpoint := s2,
          metadata := some sm } = (t, ns, cid) from rfl] at hkey
  constructor
  · exact hkey
  · rw [hkey]
    rfl

/-- C4 witness: concrete double `put` of the same checkpoint id. -/
theorem c4_put_upsert_idempotent_witness :
    put strSerde { checkpoints := [], writes := [] } "t" "" none "c1" "v1" "m1" = .ok ({ checkpoints := [{ threadId := "t", checkpointNs := "", checkpointId := "c1", parentCheckpointId := none, type := some "json", checkpoint := "v1", metadata := some "m1" }], writes := [] }, resolvedConfig "t" "" "c1") ∧
    put strSerde { checkpoints := [{ threadId := "t", checkpointNs := "", checkpointId := "c1", parentCheckpointId := none, type := some "json", checkpoint := "v1", metadata := some "m1" }], writes := [] } "t" "" (some "c0") "c1" "v2" "m2" = .ok ({ checkpoints := [{ threadId := "t", checkpointNs := "", checkpointId := "c1", parentCheckpointId := some "c0", type := some "json", checkpoint := "v2", metadata := some "m2" }], writes := [] }, resolvedConfig "t" "" "c1") ∧
    List.filter (fun r : CheckpointRow => decide (r.key = ("t", "", "c1"))) [{ threadId := "t", checkpointNs := "", checkpointId := "c1", parentCheckpointId := some "c0", type := some "json", checkpoint := "v2", metadata := some "m2" }] = [{ threadId := "t", checkpointNs := "", checkpointId := "c1", parentCheckpointId := some "c0", type := some "json", checkpoint := "v2", metadata := some "m2" }] := by
  refine ⟨rfl, rfl, ?_⟩
  exact (c4_put_upsert_idempotent String strSerde { checkpoints := [], writes := [] } { checkpoints := [{ threadId := "t", checkpointNs := "", checkpointId := "c1", parentCheckpointId := none, type := some "json", checkpoint := "v1", metadata := some "m1" }], writes := [] } { checkpoints := [{ threadId := "t", checkpointNs := "", checkpointId := "c1", parentCheckpointId := some "c0", type := some "json", checkpoint := "v2", metadata := some "m2" }], writes := [] } "t" "" none (some "c0") "c1" "v1" "m1" "v2" "m2" (resolvedConfig "t" "" "c1") (resolvedConfig "t" "" "c1") rfl rfl "json" "v2" "json" "m2" rfl rfl).1

/-- C7 witness: a database with no checkpoints at all. -/
theorem c7_empty_chain_witness :
    getTuple strSerde { checkpoints := [], writes := [] }
        { threadId := some "t", checkpointNs := some "", checkpointId := none } =
      .ok none ∧
    list strSerde { checkpoints := [], writes := [] }
        { threadId := some "t", checkpointNs := some "", checkpointId := none }
        none none = .ok [] :=
  c7_empty_chain String strSerde { checkpoints := [], writes := [] } "t" ""
    (by decide) (fun r hr => absurd hr (List.not_mem_nil r)) none none

/-- C8: the runtime's per-thread checkpointer cache returns the cached handle
for a thread id that already has one — without opening a new handle or
changing the cache — keeps at most one entry per thread id, and
`closeCheckpointer` on a thread id with no cached handle is a no-op. -/
theorem c8_checkpointer_cache (st : Runtime.State) (t : String)
    (hWF : st.WF) :
    (∀ h0, st.lookup t = some h0 → Runtime.getCheckpointer st t = (h0, st)) ∧
    (st.lookup t = none → Runtime.closeCheckpointer st t = st) ∧
    (Runtime.getCheckpointer st t).2.WF ∧
    (Runtime.closeCheckpointer st t).WF := by
  refine ⟨?_, ?_, ?_, ?_⟩
  · intro h0 hl
    unfold Runtime.getCheckpointer
    rw [hl]
  · intro hl
    unfold Runtime.closeCheckpointer
    rw [hl]
  · unfold Runtime.getCheckpointer
    cases hl : st.lookup t with
    | some h0 => exact hWF
    | none =>
      unfold Runtime.State.WF
      simp only
      rw [List.pairwise_append]
      refine ⟨hWF, List.pairwise_singleton _ _, ?_⟩
      intro p hp q hq
      have hq2 : q = (t, st.nextHandle) := by simpa using hq
      subst hq2
      have hfind := List.find?_eq_none.1 (by
        unfold Runtime.State.lookup at hl
        cases hf : st.checkpointers.find? (fun p => p.1 == t) with
        | none => rfl
        | some p0 => rw [hf] at hl; exact absurd hl (by simp)) p hp
      simpa using hfind
  · unfold Runtime.closeCheckpointer
    cases hl : st.lookup t with
    | some h0 => exact List.Pairwise.filter _ hWF
    | none => exact hWF

/-- C8 witness: a cache holding `("a", 0)`; a repeat get for `"a"` returns
handle 0 unchanged, and closing `"b"` is a no-op. -/
theorem c8_checkpointer_cache_witness :
    Runtime.getCheckpointer { checkpointers := [("a", 0)], nextHandle := 1 } "a" =
      (0, { checkpointers := [("a", 0)], nextHandle := 1 }) ∧
    Runtime.closeCheckpointer { checkpointers := [("a", 0)], nextHandle := 1 } "b" =
      { checkpointers := [("a", 0)], nextHandle := 1 } := by
  constructor
  · exact (c8_checkpointer_cache { checkpointers := [("a", 0)], nextHandle := 1 }
      "a" (by unfold Runtime.State.WF; decide)).1 0 (by decide)
  · exact (c8_checkpointer_cache { checkpointers := [("a", 0)], nextHandle := 1 }
      "b" (by unfold Runtime.State.WF; decide)).2.1 (by decide)

/-- C1 counterexample: a `putWrites` call whose second write fails to encode
still commits the first write's row.  The call aborts (it reports the
encoding error), but the writes table is left holding a row upserted by this
very invocation — not the all-or-nothing behaviour the claim states. -/
theorem c1_putWrites_partial_commit_counterexample :
    putWrites optSerde { checkpoints := [], writes := [] } "t" "" "X" "T"
        [("ch", some "v"), ("ch2", none)] =
      ({ checkpoints := [],
         writes := [{ threadId := "t", checkpointNs := "", checkpointId := "X",
                      taskId := "T", idx := 0, channel := "ch",
                      type := some "json", value := some "v" }] },
       some "unserializable") ∧
    [({ threadId := "t", checkpointNs := "", checkpointId := "X",
        taskId := "T", idx := 0, channel := "ch", type := some "json",
        value := some "v" } : WriteRow)] ≠ [] := by
  exact ⟨rfl, by decide⟩

/-- C1 as amended: when encoding the write at position `i` fails, `putWrites`
aborts there, but the writes at positions `0..i-1` of the same invocation are
already committed and stay committed; the resulting state is exactly the
state of a successful `putWrites` of the prefix before the failing write (so
"nothing committed" holds only when the first write fails). -/
theorem c1_putWrites_abort_prefix (V : Type) (serde : Serde V) (db db2 : DB)
    (t ns cid task : String) (ws : List (String × V)) (e : String)
    (h : putWrites serde db t ns cid task ws = (db2, some e)) :
    db2.checkpoints = db.checkpoints ∧
    ∃ i, ∃ hi : i < ws.length,
      serde.dumpsTyped (ws.get ⟨i, hi⟩).2 = .error e ∧
      (∀ j (hj : j < i), (serde.dumpsTyped (ws.get ⟨j, hj.trans hi⟩).2).isOk = true) ∧
      putWrites serde db t ns cid task (ws.take i) = (db2, none) := by
  unfold putWrites at h
  cases hgo : putWritesGo serde t ns cid task db.writes 0 ws with
  | mk table err =>
    rw [hgo] at h
    simp only at h
    obtain ⟨h1, h2⟩ := Prod.mk.injEq .. ▸ h
    obtain ⟨i, hi, hfail, hpre, htake⟩ :=
      putWritesGo_error_prefix serde t ns cid task ws db.writes 0 table e
        (by rw [hgo, h2])
    refine ⟨by rw [← h1], i, hi, hfail, hpre, ?_⟩
    unfold putWrites
    rw [htake, ← h1]

/-- C1 amended witness: the concrete failing call commits exactly the prefix
before the failing position. -/
theorem c1_putWrites_abort_prefix_witness :
    ({ checkpoints := [],
       writes := [{ threadId := "t", checkpointNs := "", checkpointId := "X",
                    taskId := "T", idx := 0, channel := "ch",
                    type := some "json", value := some "v" }] } : DB).checkpoints =
      ({ checkpoints := [], writes := [] } : DB).checkpoints ∧
    ∃ i, ∃ hi : i < ([(("ch" : String), some "v"), ("ch2", (none : Option String))]).length,
      optSerde.dumpsTyped (([(("ch" : String), some "v"), ("ch2", (none : Option String))]).get ⟨i, hi⟩).2 = .error "unserializable" ∧
      (∀ j (hj : j < i), (optSerde.dumpsTyped (([(("ch" : String), some "v"), ("ch2", (none : Option String))]).get ⟨j, hj.trans hi⟩).2).isOk = true) ∧
      putWrites optSerde { checkpoints := [], writes := [] } "t" "" "X" "T"
          (([(("ch" : String), some "v"), ("ch2", (none : Option String))]).take i) =
        ({ checkpoints := [],
           writes := [{ threadId := "t", checkpointNs := "", checkpointId := "X",
                        taskId := "T", idx := 0, channel := "ch",
                        type := some "json", value := some "v" }] }, none) :=
  c1_putWrites_abort_prefix (Option String) optSerde
    { checkpoints := [], writes := [] }
    { checkpoints := [],
      writes := [{ threadId := "t", checkpointNs := "", checkpointId := "X",
                   taskId := "T", idx := 0, channel := "ch",
                   type := some "json", value := some "v" }] }
    "t" "" "X" "T" [("ch", some "v"), ("ch2", none)] "unserializable" rfl

theorem exactRows_eq_key_filter (db : DB) (t ns cid : String) :
    exactRows db t ns cid =
      db.checkpoints.filter (fun r => decide (r.key = (t, ns, cid))) := by
  unfold exactRows
  apply List.filter_congr
  intro r _
  by_cases h1 : r.threadId = t <;> by_cases h2 : r.checkpointNs = ns <;>
    by_cases h3 : r.checkpointId = cid <;>
    simp [CheckpointRow.key, Prod.ext_iff, h1, h2, h3]

/-- `getTuple` on an exact checkpoint id, when the row is found and every
decode succeeds: the caller's config is echoed, pending writes, checkpoint and
metadata are decoded as the source does. -/
theorem getTuple_exact (V : Type) (serde : Serde V) (db : DB)
    (t ns cid : String) (ht : t ≠ "") (hcid : cid ≠ "")
    (row : CheckpointRow) (rest : List CheckpointRow)
    (hrows : exactRows db t ns cid = row :: rest)
    (pws : List (String × String × V))
    (hw : mapExcept (decodeWrite serde)
      (writesFor db row.threadId row.checkpointNs row.checkpointId) = .ok pws)
    (cp : V) (hcp : serde.loadsTyped (row.type.getD "json") row.checkpoint = .ok cp)
    (md : V)
    (hmd : serde.loadsTyped (row.type.getD "json") (row.metadata.getD "{}") = .ok md) :
    getTuple serde db (resolvedConfig t ns cid) =
      .ok (some { checkpoint := cp, config := resolvedConfig t ns cid,
                  metadata := md,
                  parentConfig :=
                    if truthy row.parentCheckpointId then
                      some (resolvedConfig row.threadId row.checkpointNs
                        (row.parentCheckpointId.getD ""))
                    else none,
                  pendingWrites := pws }) := by
  simp only [getTuple, resolvedConfig, Option.getD_some]
  rw [truthy_some_of_ne ht, truthy_some_of_ne hcid]
  simp only [Bool.true_eq_false, if_false, if_true]
  rw [hrows]
  simp only
  rw [hw, hcp, hmd]

/-- C5 counterexample: the left-inverse hypothesis holds for `pairSerde`, yet
`put` followed by `getTuple` at the returned config returns a metadata value
different from the original: `put` discards the metadata's own type tag
(`type2` is never stored) and the read path decodes the metadata with the
checkpoint's tag. -/
theorem c5_metadata_tag_counterexample :
    (∀ (v : String × String) ty s, pairSerde.dumpsTyped v = .ok (ty, s) →
       pairSerde.loadsTyped ty s = .ok v) ∧
    put pairSerde { checkpoints := [], writes := [] } "t" "" none "c1"
        ("A", "X") ("B", "Y") =
      .ok ({ checkpoints := [{ threadId := "t", checkpointNs := "", checkpointId := "c1", parentCheckpointId := none, type := some "A", checkpoint := "X", metadata := some "Y" }], writes := [] }, resolvedConfig "t" "" "c1") ∧
    getTuple pairSerde { checkpoints := [{ threadId := "t", checkpointNs := "", checkpointId := "c1", parentCheckpointId := none, type := some "A", checkpoint := "X", metadata := some "Y" }], writes := [] } (resolvedConfig "t" "" "c1") =
      .ok (some { checkpoint := ("A", "X"), config := resolvedConfig "t" "" "c1", metadata := ("A", "Y"), parentConfig := none, pendingWrites := [] }) ∧
    (("A", "Y") : String × String) ≠ ("B", "Y") := by
  refine ⟨?_, rfl, rfl, by decide⟩
  intro v ty s h
  obtain ⟨a, b⟩ := v
  simp only [pairSerde, Except.ok.injEq, Prod.mk.injEq] at h
  simp [pairSerde, h.1, h.2]

/-- C5 as amended: the round-trip holds under the left-inverse hypothesis
*provided* the serializer produces the same type tag for the metadata as for
the checkpoint (the store persists only the checkpoint's tag and reuses it to
decode the metadata); the pending writes of the checkpoint must also decode.
Then `put` followed by `getTuple` at the returned resolved config yields the
original checkpoint value and metadata. -/
theorem c5_roundtrip_same_tag (V : Type) (serde : Serde V)
    (hinv : ∀ v ty s, serde.dumpsTyped v = .ok (ty, s) →
      serde.loadsTyped ty s = .ok v)
    (db db2 : DB) (t ns : String) (parent : Option String) (cid : String)
    (cp md : V) (cfg2 : Config)
    (ht : t ≠ "") (hcid : cid ≠ "")
    (ty scp tym smd : String)
    (hdc : serde.dumpsTyped cp = .ok (ty, scp))
    (hdm : serde.dumpsTyped md = .ok (tym, smd))
    (htag : tym = ty)
    (hput : put serde db t ns parent cid cp md = .ok (db2, cfg2))
    (pws : List (String × String × V))
    (hw : mapExcept (decodeWrite serde) (writesFor db t ns cid) = .ok pws) :
    cfg2 = resolvedConfig t ns cid ∧
    getTuple serde db2 cfg2 =
      .ok (some { checkpoint := cp, config := resolvedConfig t ns cid,
                  metadata := md,
                  parentConfig :=
                    if truthy parent then
                      some (resolvedConfig t ns (parent.getD ""))
                    else none,
                  pendingWrites := pws }) := by
  unfold put at hput
  rw [hdc, hdm] at hput
  obtain ⟨hdb2, hcfg2⟩ : ({ db with
      checkpoints := upsertCheckpoint db.checkpoints
        { threadId := t, checkpointNs := ns, checkpointId := cid,
          parentCheckpointId := parent, type := some ty, checkpoint := scp,
          metadata := some smd } } : DB) = db2 ∧
      resolvedConfig t ns cid = cfg2 :=
    ⟨congrArg Prod.fst (Except.ok.inj hput), congrArg Prod.snd (Except.ok.inj hput)⟩
  subst hdb2
  subst hcfg2
  refine ⟨rfl, ?_⟩
  have hexact : exactRows
      { db with
        checkpoints := upsertCheckpoint db.checkpoints
          { threadId := t, checkpointNs := ns, checkpointId := cid,
            parentCheckpointId := parent, type := some ty, checkpoint := scp,
            metadata := some smd } } t ns cid =
      { threadId := t, checkpointNs := ns, checkpointId := cid,
        parentCheckpointId := parent, type := some ty, checkpoint := scp,
        metadata := some smd } :: [] := by
    rw [exactRows_eq_key_filter]
    have := filter_upsertCheckpoint_key db.checkpoints
      { threadId := t, checkpointNs := ns, checkpointId := cid,
        parentCheckpointId := parent, type := some ty, checkpoint := scp,
        metadata := some smd }
    rw [show CheckpointRow.key
          { threadId := t, checkpointNs := ns, checkpointId := cid,
            parentCheckpointId := parent, type := some ty, checkpoint := scp,
            metadata := some smd } = (t, ns, cid) from rfl] at this
    exact this
  exact getTuple_exact V serde _ t ns cid ht hcid _ [] hexact pws hw cp
    (hinv cp ty scp hdc) md (htag ▸ hinv md tym smd hdm)

/-- C5 amended witness: with a same-tag serializer the round-trip recovers the
original checkpoint value and metadata. -/
theorem c5_roundtrip_same_tag_witness :
    resolvedConfig "t" "" "c1" = resolvedConfig "t" "" "c1" ∧
    getTuple strSerde { checkpoints := [{ threadId := "t", checkpointNs := "", checkpointId := "c1", parentCheckpointId := none, type := some "json", checkpoint := "v1", metadata := some "m1" }], writes := [] } (resolvedConfig "t" "" "c1") =
      .ok (some { checkpoint := "v1", config := resolvedConfig "t" "" "c1", metadata := "m1", parentConfig := if truthy (none : Option String) then some (resolvedConfig "t" "" ((none : Option String).getD "")) else none, pendingWrites := ([] : List (String × String × String)) }) :=
  c5_roundtrip_same_tag String strSerde
    (fun v ty s h => by
      simp only [strSerde, Except.ok.injEq, Prod.mk.injEq] at h
      simp [strSerde, h.2])
    { checkpoints := [], writes := [] }
    { checkpoints := [{ threadId := "t", checkpointNs := "", checkpointId := "c1", parentCheckpointId := none, type := some "json", checkpoint := "v1", metadata := some "m1" }], writes := [] }
    "t" "" none "c1" "v1" "m1" (resolvedConfig "t" "" "c1") (by decide)
    (by decide) "json" "v1" "json" "m1" rfl rfl rfl rfl [] rfl

theorem write_key_eq_iff (w : WriteRow) (t ns cid task : String) (i : Nat) :
    w.key = (t, ns, cid, task, i) ↔
      w.threadId = t ∧ w.checkpointNs = ns ∧ w.checkpointId = cid ∧
        w.taskId = task ∧ w.idx = i := by
  unfold WriteRow.key
  simp [Prod.ext_iff]

/-- C3: write indices come from list position, and re-submitted
`(task, idx)` pairs overwrite in place.  After `putWrites [a, b, c]` then
`putWrites [a2, b2]` at the same `(thread, ns, checkpoint X, task T)` starting
from a state with no rows for `(X, T)`, the table holds exactly three rows for
`(X, T)`: index 0 the encoding of `a2`, index 1 of `b2`, index 2 still of `c`,
and nothing at any index ≥ 3. -/
theorem c3_putWrites_overwrite_in_place (V : Type) (serde : Serde V)
    (db db1 db2 : DB) (t ns X T : String)
    (a b c a2 b2 : String × V)
    (h1 : putWrites serde db t ns X T [a, b, c] = (db1, none))
    (h2 : putWrites serde db1 t ns X T [a2, b2] = (db2, none))
    (hfresh : ∀ w ∈ db.writes, ¬(w.threadId = t ∧ w.checkpointNs = ns ∧
      w.checkpointId = X ∧ w.taskId = T)) :
    (∃ ty s, serde.dumpsTyped a2.2 = .ok (ty, s) ∧
      db2.writes.filter (fun w => decide (w.key = (t, ns, X, T, 0))) =
        [{ threadId := t, checkpointNs := ns, checkpointId := X, taskId := T, idx := 0, channel := a2.1, type := some ty, value := some s }]) ∧
    (∃ ty s, serde.dumpsTyped b2.2 = .ok (ty, s) ∧
      db2.writes.filter (fun w => decide (w.key = (t, ns, X, T, 1))) =
        [{ threadId := t, checkpointNs := ns, checkpointId := X, taskId := T, idx := 1, channel := b2.1, type := some ty, value := some s }]) ∧
    (∃ ty s, serde.dumpsTyped c.2 = .ok (ty, s) ∧
      db2.writes.filter (fun w => decide (w.key = (t, ns, X, T, 2))) =
        [{ threadId := t, checkpointNs := ns, checkpointId := X, taskId := T, idx := 2, channel := c.1, type := some ty, value := some s }]) ∧
    (∀ i, 3 ≤ i →
      db2.writes.filter (fun w => decide (w.key = (t, ns, X, T, i))) = []) := by
  unfold putWrites at h1 h2
  cases hgo1 : putWritesGo serde t ns X T db.writes 0 [a, b, c] with
  | mk table1 err1 =>
    rw [hgo1] at h1
    simp only at h1
    obtain ⟨hdb1, herr1⟩ := Prod.mk.injEq .. ▸ h1
    cases hgo2 : putWritesGo serde t ns X T db1.writes 0 [a2, b2] with
    | mk table2 err2 =>
      rw [hgo2] at h2
      simp only at h2
      obtain ⟨hdb2, herr2⟩ := Prod.mk.injEq .. ▸ h2
      have hgo1n : putWritesGo serde t ns X T db.writes 0 [a, b, c] =
          (table1, none) := by rw [hgo1, herr1]
      have hw1 : db1.writes = table1 := by rw [← hdb1]
      have hgo2n : putWritesGo serde t ns X T table1 0 [a2, b2] =
          (table2, none) := by
        rw [hw1] at hgo2
        rw [herr2] at hgo2
        exact hgo2
      have hw2 : db2.writes = table2 := by rw [← hdb2]
      have hat2 := putWritesGo_ok_at serde t ns X T [a2, b2] table1 0 table2 hgo2n
      have hother2 := putWritesGo_ok_other serde t ns X T [a2, b2] table1 0 table2 hgo2n
      have hat1 := putWritesGo_ok_at serde t ns X T [a, b, c] db.writes 0 table1 hgo1n
      have hother1 := putWritesGo_ok_other serde t ns X T [a, b, c] db.writes 0 table1 hgo1n
      have hbase : ∀ i, 3 ≤ i →
          db.writes.filter (fun w => decide (w.key = (t, ns, X, T, i))) = [] := by
        intro i _
        apply List.filter_eq_nil.2
        intro w hwmem hc
        have hk := of_decide_eq_true hc
        obtain ⟨k1, k2, k3, k4, -⟩ := (write_key_eq_iff w t ns X T i).1 hk
        exact hfresh w hwmem ⟨k1, k2, k3, k4⟩
      refine ⟨?_, ?_, ?_, ?_⟩
      · obtain ⟨ty, s, hd, hf⟩ := hat2 0 (by simp)
        refine ⟨ty, s, hd, ?_⟩
        rw [hw2]
        simpa using hf
      · obtain ⟨ty, s, hd, hf⟩ := hat2 1 (by simp)
        refine ⟨ty, s, hd, ?_⟩
        rw [hw2]
        simpa using hf
      · obtain ⟨ty, s, hd, hf⟩ := hat1 2 (by simp)
        refine ⟨ty, s, hd, ?_⟩
        rw [hw2]
        rw [hother2 (t, ns, X, T, 2) (by
          intro j hj
          simp only [List.length_cons, List.length_nil] at hj
          intro hceq
          have h5 : (2 : Nat) = 0 + j := by
            have := congrArg (fun q : String × String × String × String × Nat =>
              q.2.2.2.2) hceq
            simpa using this
          omega)]
        simpa using hf
      · intro i hi
        rw [hw2]
        rw [hother2 (t, ns, X, T, i) (by
          intro j hj
          simp only [List.length_cons, List.length_nil] at hj
          intro hceq
          have h5 : i = 0 + j := by
            have := congrArg (fun q : String × String × String × String × Nat =>
              q.2.2.2.2) hceq
            simpa using this
          omega)]
        rw [hother1 (t, ns, X, T, i) (by
          intro j hj
          simp only [List.length_cons, List.length_nil] at hj
          intro hceq
          have h5 : i = 0 + j := by
            have := congrArg (fun q : String × String × String × String × Nat =>
              q.2.2.2.2) hceq
            simpa using this
          omega)]
        exact hbase i hi

/-- C3 witness: a concrete overwrite run; note index 0 and 1 now hold `a2`
and `b2`, index 2 still holds `c`, and no index 3 row exists. -/
theorem c3_putWrites_overwrite_in_place_witness :
    (∃ ty s, strSerde.dumpsTyped "a2" = .ok (ty, s) ∧
      ({ checkpoints := [], writes := [{ threadId := "t", checkpointNs := "", checkpointId := "X", taskId := "T", idx := 2, channel := "ch", type := some "json", value := some "c" }, { threadId := "t", checkpointNs := "", checkpointId := "X", taskId := "T", idx := 0, channel := "ch", type := some "json", value := some "a2" }, { threadId := "t", checkpointNs := "", checkpointId := "X", taskId := "T", idx := 1, channel := "ch", type := some "json", value := some "b2" }] } : DB).writes.filter (fun w => decide (w.key = ("t", "", "X", "T", 0))) = [{ threadId := "t", checkpointNs := "", checkpointId := "X", taskId := "T", idx := 0, channel := "ch", type := some ty, value := some s }]) ∧
    (∃ ty s, strSerde.dumpsTyped "b2" = .ok (ty, s) ∧
      ({ checkpoints := [], writes := [{ threadId := "t", checkpointNs := "", checkpointId := "X", taskId := "T", idx := 2, channel := "ch", type := some "json", value := some "c" }, { threadId := "t", checkpointNs := "", checkpointId := "X", taskId := "T", idx := 0, channel := "ch", type := some "json", value := some "a2" }, { threadId := "t", checkpointNs := "", checkpointId := "X", taskId := "T", idx := 1, channel := "ch", type := some "json", value := some "b2" }] } : DB).writes.filter (fun w => decide (w.key = ("t", "", "X", "T", 1))) = [{ threadId := "t", checkpointNs := "", checkpointId := "X", taskId := "T", idx := 1, channel := "ch", type := some ty, value := some s }]) ∧
    (∃ ty s, strSerde.dumpsTyped "c" = .ok (ty, s) ∧
      ({ checkpoints := [], writes := [{ threadId := "t", checkpointNs := "", checkpointId := "X", taskId := "T", idx := 2, channel := "ch", type := some "json", value := some "c" }, { threadId := "t", checkpointNs := "", checkpointId := "X", taskId := "T", idx := 0, channel := "ch", type := some "json", value := some "a2" }, { threadId := "t", checkpointNs := "", checkpointId := "X", taskId := "T", idx := 1, channel := "ch", type := some "json", value := some "b2" }] } : DB).writes.filter (fun w => decide (w.key = ("t", "", "X", "T", 2))) = [{ threadId := "t", checkpointNs := "", checkpointId := "X", taskId := "T", idx := 2, channel := "ch", type := some ty, value := some s }]) ∧
    ({ checkpoints := [], writes := [{ threadId := "t", checkpointNs := "", checkpointId := "X", taskId := "T", idx := 2, channel := "ch", type := some "json", value := some "c" }, { threadId := "t", checkpointNs := "", checkpointId := "X", taskId := "T", idx := 0, channel := "ch", type := some "json", value := some "a2" }, { threadId := "t", checkpointNs := "", checkpointId := "X", taskId := "T", idx := 1, channel := "ch", type := some "json", value := some "b2" }] } : DB).writes.filter (fun w => decide (w.key = ("t", "", "X", "T", 3))) = [] := by
  have W := c3_putWrites_overwrite_in_place String strSerde
    { checkpoints := [], writes := [] } { checkpoints := [], writes := [{ threadId := "t", checkpointNs := "", checkpointId := "X", taskId := "T", idx := 0, channel := "ch", type := some "json", value := some "a" }, { threadId := "t", checkpointNs := "", checkpointId := "X", taskId := "T", idx := 1, channel := "ch", type := some "json", value := some "b" }, { threadId := "t", checkpointNs := "", checkpointId := "X", taskId := "T", idx := 2, channel := "ch", type := some "json", value := some "c" }] } { checkpoints := [], writes := [{ threadId := "t", checkpointNs := "", checkpointId := "X", taskId := "T", idx := 2, channel := "ch", type := some "json", value := some "c" }, { threadId := "t", checkpointNs := "", checkpointId := "X", taskId := "T", idx := 0, channel := "ch", type := some "json", value := some "a2" }, { threadId := "t", checkpointNs := "", checkpointId := "X", taskId := "T", idx := 1, channel := "ch", type := some "json", value := some "b2" }] }
    "t" "" "X" "T" ("ch", "a") ("ch", "b") ("ch", "c") ("ch", "a2") ("ch", "b2")
    rfl rfl (fun w hw => absurd hw (List.not_mem_nil w))
  exact ⟨W.1, W.2.1, W.2.2.1, W.2.2.2 3 (by decide)⟩

/-- C10: null columns are defaulted, not errors.  A checkpoint row with null
`metadata` is decoded from the literal `"{}"` with the row's `type ?? "json"`
tag, and a pending-write row with null `type` and `value` is decoded as tag
`"json"` from `""`; both `getTuple` and the per-row body of `list` succeed,
returning the decoded defaults. -/
theorem c10_null_defaults (V : Type) (serde : Serde V) (db : DB)
    (t ns cid : String) (ht : t ≠ "") (hcid : cid ≠ "")
    (r : CheckpointRow) (hrow : exactRows db t ns cid = [r])
    (hmeta : r.metadata = none)
    (w : WriteRow)
    (hwrites : writesFor db r.threadId r.checkpointNs r.checkpointId = [w])
    (hwt : w.type = none) (hwv : w.value = none)
    (cp : V) (hcp : serde.loadsTyped (r.type.getD "json") r.checkpoint = .ok cp)
    (m : V) (hm : serde.loadsTyped (r.type.getD "json") "{}" = .ok m)
    (wv : V) (hwv2 : serde.loadsTyped "json" "" = .ok wv) :
    getTuple serde db (resolvedConfig t ns cid) =
      .ok (some { checkpoint := cp, config := resolvedConfig t ns cid,
                  metadata := m,
                  parentConfig :=
                    if truthy r.parentCheckpointId then
                      some (resolvedConfig r.threadId r.checkpointNs
                        (r.parentCheckpointId.getD ""))
                    else none,
                  pendingWrites := [(w.taskId, w.channel, wv)] }) ∧
    decodeListTuple serde db r =
      .ok { checkpoint := cp,
            config := resolvedConfig r.threadId r.checkpointNs r.checkpointId,
            metadata := m,
            parentConfig :=
              if truthy r.parentCheckpointId then
                some (resolvedConfig r.threadId r.checkpointNs
                  (r.parentCheckpointId.getD ""))
              else none,
            pendingWrites := [(w.taskId, w.channel, wv)] } := by
  have hdw : decodeWrite serde w = .ok (w.taskId, w.channel, wv) := by
    unfold decodeWrite
    rw [hwt, hwv]
    rw [show ((none : Option String).getD "json") = "json" from rfl]
    rw [show ((none : Option String).getD "") = "" from rfl]
    rw [hwv2]
  have hpw : mapExcept (decodeWrite serde)
      (writesFor db r.threadId r.checkpointNs r.checkpointId) =
      .ok [(w.taskId, w.channel, wv)] := by
    rw [hwrites]
    simp only [mapExcept]
    rw [hdw]
  have hmd : serde.loadsTyped (r.type.getD "json") (r.metadata.getD "{}") =
      .ok m := by
    rw [hmeta]
    exact hm
  constructor
  · exact getTuple_exact V serde db t ns cid ht hcid r [] hrow
      [(w.taskId, w.channel, wv)] hpw cp hcp m hmd
  · unfold decodeListTuple
    rw [hpw, hcp, hmd]

/-- C10 witness: a stored row with null metadata/type and a pending write with
null type/value decode to the defaults without failing. -/
theorem c10_null_defaults_witness :
    getTuple strSerde { checkpoints := [{ threadId := "t", checkpointNs := "", checkpointId := "c1", parentCheckpointId := none, type := none, checkpoint := "v1", metadata := none }], writes := [{ threadId := "t", checkpointNs := "", checkpointId := "c1", taskId := "T", idx := 0, channel := "ch", type := none, value := none }] } (resolvedConfig "t" "" "c1") =
      .ok (some { checkpoint := "v1", config := resolvedConfig "t" "" "c1", metadata := "{}", parentConfig := if truthy (none : Option String) then some (resolvedConfig "t" "" ((none : Option String).getD "")) else none, pendingWrites := [("T", "ch", "")] }) ∧
    decodeListTuple strSerde { checkpoints := [{ threadId := "t", checkpointNs := "", checkpointId := "c1", parentCheckpointId := none, type := none, checkpoint := "v1", metadata := none }], writes := [{ threadId := "t", checkpointNs := "", checkpointId := "c1", taskId := "T", idx := 0, channel := "ch", type := none, value := none }] } { threadId := "t", checkpointNs := "", checkpointId := "c1", parentCheckpointId := none, type := none, checkpoint := "v1", metadata := none } =
      .ok { checkpoint := "v1", config := resolvedConfig "t" "" "c1", metadata := "{}", parentConfig := if truthy (none : Option String) then some (resolvedConfig "t" "" ((none : Option String).getD "")) else none, pendingWrites := [("T", "ch", "")] } :=
  c10_null_defaults String strSerde
    { checkpoints := [{ threadId := "t", checkpointNs := "", checkpointId := "c1", parentCheckpointId := none, type := none, checkpoint := "v1", metadata := none }], writes := [{ threadId := "t", checkpointNs := "", checkpointId := "c1", taskId := "T", idx := 0, channel := "ch", type := none, value := none }] }
    "t" "" "c1" (by decide) (by decide)
    { threadId := "t", checkpointNs := "", checkpointId := "c1", parentCheckpointId := none, type := none, checkpoint := "v1", metadata := none } rfl rfl
    { threadId := "t", checkpointNs := "", checkpointId := "c1", taskId := "T", idx := 0, channel := "ch", type := none, value := none } rfl rfl rfl
    "v1" rfl "{}" rfl "" rfl

/-- C2 counterexample: the pending-write query has no `ORDER BY`, so after a
task resubmits its first write (`putWrites [a,b,c]` then `putWrites [a2]`,
which the row store realises by superseding the idx-0 row with a fresh row
version at the end), `getTuple` returns the triples in row order — indices
1, 2, 0 — not in ascending write index.  The state below is exactly
`put c1; put c2; putWrites(c2,T1,[a,b,c]); putWrites(c2,T1,[a2])`. -/
theorem c2_pendingWrites_order_counterexample :
    getTuple strSerde { checkpoints := [{ threadId := "t", checkpointNs := "", checkpointId := "c1", parentCheckpointId := none, type := some "json", checkpoint := "cp1", metadata := some "md1" }, { threadId := "t", checkpointNs := "", checkpointId := "c2", parentCheckpointId := some "c1", type := some "json", checkpoint := "cp2", metadata := some "md2" }], writes := [{ threadId := "t", checkpointNs := "", checkpointId := "c2", taskId := "T1", idx := 1, channel := "ch", type := some "json", value := some "b" }, { threadId := "t", checkpointNs := "", checkpointId := "c2", taskId := "T1", idx := 2, channel := "ch", type := some "json", value := some "c" }, { threadId := "t", checkpointNs := "", checkpointId := "c2", taskId := "T1", idx := 0, channel := "ch", type := some "json", value := some "a2" }] } { threadId := some "t", checkpointNs := some "", checkpointId := none } =
      .ok (some { checkpoint := "cp2", config := resolvedConfig "t" "" "c2", metadata := "md2", parentConfig := some (resolvedConfig "t" "" "c1"), pendingWrites := [("T1", "ch", "b"), ("T1", "ch", "c"), ("T1", "ch", "a2")] }) ∧
    putWrites strSerde { checkpoints := [{ threadId := "t", checkpointNs := "", checkpointId := "c1", parentCheckpointId := none, type := some "json", checkpoint := "cp1", metadata := some "md1" }, { threadId := "t", checkpointNs := "", checkpointId := "c2", parentCheckpointId := some "c1", type := some "json", checkpoint := "cp2", metadata := some "md2" }], writes := [{ threadId := "t", checkpointNs := "", checkpointId := "c2", taskId := "T1", idx := 0, channel := "ch", type := some "json", value := some "a" }, { threadId := "t", checkpointNs := "", checkpointId := "c2", taskId := "T1", idx := 1, channel := "ch", type := some "json", value := some "b" }, { threadId := "t", checkpointNs := "", checkpointId := "c2", taskId := "T1", idx := 2, channel := "ch", type := some "json", value := some "c" }] } "t" "" "c2" "T1" [("ch", "a2")] = ({ checkpoints := [{ threadId := "t", checkpointNs := "", checkpointId := "c1", parentCheckpointId := none, type := some "json", checkpoint := "cp1", metadata := some "md1" }, { threadId := "t", checkpointNs := "", checkpointId := "c2", parentCheckpointId := some "c1", type := some "json", checkpoint := "cp2", metadata := some "md2" }], writes := [{ threadId := "t", checkpointNs := "", checkpointId := "c2", taskId := "T1", idx := 1, channel := "ch", type := some "json", value := some "b" }, { threadId := "t", checkpointNs := "", checkpointId := "c2", taskId := "T1", idx := 2, channel := "ch", type := some "json", value := some "c" }, { threadId := "t", checkpointNs := "", checkpointId := "c2", taskId := "T1", idx := 0, channel := "ch", type := some "json", value := some "a2" }] }, none) ∧
    ([("T1", "ch", "b"), ("T1", "ch", "c"), ("T1", "ch", "a2")] : List (String × String × String)) ≠
      [("T1", "ch", "a2"), ("T1", "ch", "b"), ("T1", "ch", "c")] := by
  refine ⟨rfl, rfl, by decide⟩

/-- Inversion of a successful exact `getTuple`: the matching row exists, its
key columns equal the requested ones, and the returned pending writes are the
successful decode of the row's write query. -/
theorem getTuple_exact_inv (V : Type) (serde : Serde V) (db : DB)
    (t ns cid : String) (ht : t ≠ "") (hcid : cid ≠ "")
    (tp : CheckpointTuple V)
    (hget : getTuple serde db (resolvedConfig t ns cid) = .ok (some tp)) :
    ∃ row rest pws, exactRows db t ns cid = row :: rest ∧
      row.threadId = t ∧ row.checkpointNs = ns ∧ row.checkpointId = cid ∧
      mapExcept (decodeWrite serde)
        (writesFor db row.threadId row.checkpointNs row.checkpointId) = .ok pws ∧
      tp.pendingWrites = pws := by
  simp only [getTuple, resolvedConfig, Option.getD_some] at hget
  rw [truthy_some_of_ne ht, truthy_some_of_ne hcid] at hget
  simp only [Bool.true_eq_false, if_false, if_true] at hget
  cases hrows : exactRows db t ns cid with
  | nil => rw [hrows] at hget; exact absurd hget (by simp)
  | cons row rest =>
    rw [hrows] at hget
    simp only at hget
    have hmem : row ∈ exactRows db t ns cid := by
      rw [hrows]
      exact List.mem_cons_self row rest
    have hfields := List.mem_filter.1 hmem
    rw [Bool.and_eq_true, Bool.and_eq_true] at hfields
    obtain ⟨-, ⟨hf1, hf2⟩, hf3⟩ := hfields
    cases hpw : mapExcept (decodeWrite serde)
        (writesFor db row.threadId row.checkpointNs row.checkpointId) with
    | error e => rw [hpw] at hget; exact absurd hget (by simp)
    | ok pws =>
      rw [hpw] at hget
      cases hcp : serde.loadsTyped (row.type.getD "json") row.checkpoint with
      | error e => rw [hcp] at hget; exact absurd hget (by simp)
      | ok cp =>
        rw [hcp] at hget
        cases hmd : serde.loadsTyped (row.type.getD "json") (row.metadata.getD "{}") with
        | error e => rw [hmd] at hget; exact absurd hget (by simp)
        | ok md =>
          rw [hmd] at hget
          have htp := (Option.some.inj (Except.ok.inj hget)).symm
          refine ⟨row, rest, pws, rfl, of_decide_eq_true hf1,
            of_decide_eq_true hf2, of_decide_eq_true hf3, hpw, ?_⟩
          rw [htp]

/-- C2 as amended: `getTuple` returns the full decoded set of pending writes
of the exact checkpoint, but in the writes table's row order — the query has
no ORDER BY on the write index, so ascending order is guaranteed only when no
row was overwritten out of order.  In the fresh case (a single `putWrites`
call on a checkpoint with no prior pending writes), the stored indices are
exactly `0, 1, ...` in input order and the returned triples are the submitted
writes, in submitted order, with task id and channel preserved and each value
the decode of its encoding. -/
theorem c2_pendingWrites_full_set_submitted_order (V : Type) (serde : Serde V)
    (db db2 : DB) (t ns cid task : String) (ht : t ≠ "") (hcid : cid ≠ "")
    (ws : List (String × V))
    (hfresh : writesFor db t ns cid = [])
    (hput : putWrites serde db t ns cid task ws = (db2, none))
    (tp : CheckpointTuple V)
    (hget : getTuple serde db2 (resolvedConfig t ns cid) = .ok (some tp)) :
    (writesFor db2 t ns cid).map (fun w => w.idx) = List.range ws.length ∧
    List.Forall₂ (fun (w : String × V) pw => ∃ ty s v,
      serde.dumpsTyped w.2 = .ok (ty, s) ∧ serde.loadsTyped ty s = .ok v ∧
      pw = (task, w.1, v)) ws tp.pendingWrites := by
  unfold putWrites at hput
  cases hgo : putWritesGo serde t ns cid task db.writes 0 ws with
  | mk table2 err2 =>
    rw [hgo] at hput
    simp only at hput
    obtain ⟨hdb2, herr2⟩ := Prod.mk.injEq .. ▸ hput
    have hgon : putWritesGo serde t ns cid task db.writes 0 ws =
        (table2, none) := by rw [hgo, herr2]
    have hfresh0 : ∀ w ∈ db.writes, ¬(w.threadId = t ∧ w.checkpointNs = ns ∧
        w.checkpointId = cid ∧ w.taskId = task ∧ 0 ≤ w.idx) := by
      intro w hw hc
      have hnil := List.filter_eq_nil.1 hfresh w hw
      apply hnil
      rw [Bool.and_eq_true, Bool.and_eq_true]
      exact ⟨⟨decide_eq_true hc.1, decide_eq_true hc.2.1⟩,
        decide_eq_true hc.2.2.1⟩
    obtain ⟨rows, htbl, hrel⟩ :=
      putWritesGo_fresh serde t ns cid task ws db.writes 0 table2 hgon hfresh0
    have hw2 : db2.writes = table2 := by rw [← hdb2]
    have hwf2 : writesFor db2 t ns cid = rows := by
      unfold writesFor
      rw [hw2, htbl, List.filter_append]
      rw [show List.filter (fun w => decide (w.threadId = t) &&
          decide (w.checkpointNs = ns) && decide (w.checkpointId = cid))
          db.writes = writesFor db t ns cid from rfl, hfresh]
      rw [List.nil_append]
      apply List.filter_eq_self.2
      intro row hrow
      obtain ⟨p, -, ty, s, -, hroweq⟩ := forall₂_mem_right hrel row hrow
      rw [hroweq]
      simp
    constructor
    · rw [hwf2]
      have hlen : (List.range' 0 ws.length).length ≤ ws.length := by
        rw [List.length_range']
      have hmap1 : (ws.zip (List.range' 0 ws.length)).map Prod.snd =
          List.range' 0 ws.length :=
        List.map_snd_zip ws (List.range' 0 ws.length) hlen
      have hmap2 := forall₂_map_eq hrel Prod.snd (fun row => row.idx)
        (fun p row hR => by
          obtain ⟨ty, s, hd, hroweq⟩ := hR
          rw [hroweq])
      rw [← hmap2, hmap1, List.range_eq_range']
    · obtain ⟨row, rest, pws, hrows, hr1, hr2, hr3, hpw, htpw⟩ :=
        getTuple_exact_inv V serde db2 t ns cid ht hcid tp hget
      rw [hr1, hr2, hr3, hwf2] at hpw
      have hdec := forall₂_of_mapExcept_ok hpw
      have hcomp := forall₂_comp hrel hdec
      have hzip := forall₂_zip_left (by rw [List.length_range']) hcomp
      rw [htpw]
      refine hzip.imp ?_
      rintro w pw ⟨x, rowx, ⟨ty, s, hd, hroweq⟩, hdecw⟩
      subst hroweq
      unfold decodeWrite at hdecw
      simp only [Option.getD_some] at hdecw
      cases hv : serde.loadsTyped ty s with
      | error e => rw [hv] at hdecw; exact absurd hdecw (by simp)
      | ok v =>
        rw [hv] at hdecw
        have := Except.ok.inj hdecw
        exact ⟨ty, s, v, hd, hv, this.symm⟩

/-- C2 amended witness: one fresh `putWrites` of two writes, read back in
submitted order. -/
theorem c2_pendingWrites_full_set_submitted_order_witness :
    (writesFor { checkpoints := [{ threadId := "t", checkpointNs := "", checkpointId := "c2", parentCheckpointId := none, type := some "json", checkpoint := "cp2", metadata := some "md2" }], writes := [{ threadId := "t", checkpointNs := "", checkpointId := "c2", taskId := "T1", idx := 0, channel := "ch", type := some "json", value := some "a" }, { threadId := "t", checkpointNs := "", checkpointId := "c2", taskId := "T1", idx := 1, channel := "ch", type := some "json", value := some "b" }] } "t" "" "c2").map (fun w => w.idx) = List.range 2 ∧
    List.Forall₂ (fun (w : String × String) pw => ∃ ty s v,
      strSerde.dumpsTyped w.2 = .ok (ty, s) ∧ strSerde.loadsTyped ty s = .ok v ∧
      pw = ("T1", w.1, v)) [("ch", "a"), ("ch", "b")]
      ({ checkpoint := "cp2", config := resolvedConfig "t" "" "c2", metadata := "md2", parentConfig := none, pendingWrites := [("T1", "ch", "a"), ("T1", "ch", "b")] } : CheckpointTuple String).pendingWrites :=
  c2_pendingWrites_full_set_submitted_order String strSerde { checkpoints := [{ threadId := "t", checkpointNs := "", checkpointId := "c2", parentCheckpointId := none, type := some "json", checkpoint := "cp2", metadata := some "md2" }], writes := [] } { checkpoints := [{ threadId := "t", checkpointNs := "", checkpointId := "c2", parentCheckpointId := none, type := some "json", checkpoint := "cp2", metadata := some "md2" }], writes := [{ threadId := "t", checkpointNs := "", checkpointId := "c2", taskId := "T1", idx := 0, channel := "ch", type := some "json", value := some "a" }, { threadId := "t", checkpointNs := "", checkpointId := "c2", taskId := "T1", idx := 1, channel := "ch", type := some "json", value := some "b" }] }
    "t" "" "c2" "T1" (by decide) (by decide) [("ch", "a"), ("ch", "b")]
    rfl rfl { checkpoint := "cp2", config := resolvedConfig "t" "" "c2", metadata := "md2", parentConfig := none, pendingWrites := [("T1", "ch", "a"), ("T1", "ch", "b")] } rfl

/-- Backward pagination as a caller performs it: fetch a page of `n`
checkpoints, then repeat with `before` set to the config of the last tuple
seen, until a page comes back empty.  `fuel` bounds the recursion. -/
def paginate (serde : Serde V) (db : DB) (cfg : Config) (n : Nat) :
    Nat → Option Config → Except String (List (CheckpointTuple V))
  | 0, _ => .ok []
  | fuel + 1, before =>
    match list serde db cfg (some n) before with
    | .error e => .error e
    | .ok page =>
      match page.getLast? with
      | none => .ok []
      | some tp =>
        match paginate serde db cfg n fuel (some tp.config) with
        | .error e => .error e
        | .ok rest => .ok (page ++ rest)

theorem list_none_eq (serde : Serde V) (db : DB) {t : String} (ht : t ≠ "")
    (ns : String) (bcfg : Option Config) :
    list serde db { threadId := some t, checkpointNs := some ns, checkpointId := none } none bcfg =
      mapExcept (decodeListTuple serde db) (chainRows db t ns (effBefore bcfg)) := by
  rw [list_of_truthy serde db (truthy_some_of_ne ht)]
  simp [limitTruthy]

theorem list_limit_eq (serde : Serde V) (db : DB) {t : String} (ht : t ≠ "")
    (ns : String) (bcfg : Option Config) (n : Nat) (hn : 0 < n) :
    list serde db { threadId := some t, checkpointNs := some ns, checkpointId := none } (some n) bcfg =
      mapExcept (decodeListTuple serde db)
        ((chainRows db t ns (effBefore bcfg)).take n) := by
  rw [list_of_truthy serde db (truthy_some_of_ne ht)]
  have hz : (n == 0) = false := by
    simpa using Nat.pos_iff_ne_zero.1 hn
  simp [limitTruthy, hz]

theorem mapExcept_take {α β : Type _} {f : α → Except String β} {l : List α}
    {ys : List β} (h : mapExcept f l = .ok ys) (n : Nat) :
    mapExcept f (l.take n) = .ok (ys.take n) :=
  mapExcept_ok_of_forall₂ (List.forall₂_take n (forall₂_of_mapExcept_ok h))

theorem mapExcept_drop {α β : Type _} {f : α → Except String β} {l : List α}
    {ys : List β} (h : mapExcept f l = .ok ys) (n : Nat) :
    mapExcept f (l.drop n) = .ok (ys.drop n) :=
  mapExcept_ok_of_forall₂ (List.forall₂_drop n (forall₂_of_mapExcept_ok h))

theorem effBefore_some (b : Config) :
    effBefore (some b) =
      if truthy b.checkpointId then some (b.checkpointId.getD "") else none := rfl

theorem paginate_succ (serde : Serde V) (db : DB) (cfg : Config) (n fuel : Nat)
    (before : Option Config) (page : List (CheckpointTuple V))
    (hp : list serde db cfg (some n) before = .ok page) :
    paginate serde db cfg n (fuel + 1) before =
      match page.getLast? with
      | none => .ok []
      | some tp =>
        match paginate serde db cfg n fuel (some tp.config) with
        | .error e => .error e
        | .ok rest => .ok (page ++ rest) := by
  conv_lhs => unfold paginate
  rw [hp]

theorem paginate_succ_last (serde : Serde V) (db : DB) (cfg : Config)
    (n fuel : Nat) (before : Option Config) (page : List (CheckpointTuple V))
    (tp : CheckpointTuple V)
    (hp : list serde db cfg (some n) before = .ok page)
    (hl : page.getLast? = some tp) :
    paginate serde db cfg n (fuel + 1) before =
      match paginate serde db cfg n fuel (some tp.config) with
      | .error e => .error e
      | .ok rest => .ok (page ++ rest) := by
  rw [paginate_succ serde db cfg n fuel before page hp, hl]

theorem paginate_succ_full (serde : Serde V) (db : DB) (cfg : Config)
    (n fuel : Nat) (before : Option Config) (page : List (CheckpointTuple V))
    (tp : CheckpointTuple V) (rest : List (CheckpointTuple V))
    (hp : list serde db cfg (some n) before = .ok page)
    (hl : page.getLast? = some tp)
    (hr : paginate serde db cfg n fuel (some tp.config) = .ok rest) :
    paginate serde db cfg n (fuel + 1) before = .ok (page ++ rest) := by
  rw [paginate_succ_last serde db cfg n fuel before page tp hp hl, hr]

/-- Concatenating successive pages, each `before` cursor set to the config of
the last tuple seen, reproduces the sequence of the corresponding unbounded
call. -/
theorem paginate_eq_aux (V : Type) (serde : Serde V) (db : DB) (t ns : String)
    (ht : t ≠ "") (hWF : db.WF)
    (hids : ∀ r ∈ db.checkpoints, r.checkpointId ≠ "")
    (n : Nat) (hn : 0 < n) :
    ∀ (fuel : Nat) (bcur : Option Config) (rem : List (CheckpointTuple V)),
      list serde db { threadId := some t, checkpointNs := some ns, checkpointId := none } none bcur = .ok rem →
      rem.length ≤ fuel →
      paginate serde db { threadId := some t, checkpointNs := some ns, checkpointId := none } n fuel bcur = .ok rem := by
  intro fuel
  induction fuel with
  | zero =>
    intro bcur rem hrem hlen
    have : rem = [] := List.length_eq_zero.1 (Nat.le_zero.1 hlen)
    subst this
    rfl
  | succ fuel ih =>
    intro bcur rem hrem hlen
    have hremL : mapExcept (decodeListTuple serde db)
        (chainRows db t ns (effBefore bcur)) = .ok rem := by
      rw [list_none_eq serde db ht ns bcur] at hrem
      exact hrem
    have hpage : list serde db { threadId := some t, checkpointNs := some ns, checkpointId := none } (some n) bcur = .ok (rem.take n) := by
      rw [list_limit_eq serde db ht ns bcur n hn]
      exact mapExcept_take hremL n
    cases rem with
    | nil =>
      rw [paginate_succ serde db _ n fuel bcur [] (by simpa using hpage)]
      rfl
    | cons tp0 rem0 =>
      have hne : (tp0 :: rem0).take n ≠ [] := by
        cases n with
        | zero => exact absurd hn (lt_irrefl 0)
        | succ m => simp
      have hlast : ((tp0 :: rem0).take n).getLast? =
          some (((tp0 :: rem0).take n).getLast hne) :=
        List.getLast?_eq_getLast _ hne
      have hf := forall₂_of_mapExcept_ok hremL
      have hlen2 : (chainRows db t ns (effBefore bcur)).length =
          (tp0 :: rem0).length := hf.length_eq
      have hk1 : 1 ≤ ((tp0 :: rem0).take n).length := by
        rw [List.length_take]
        simp only [List.length_cons]
        omega
      have hkle : ((tp0 :: rem0).take n).length ≤ (tp0 :: rem0).length := by
        rw [List.length_take]
        exact Nat.min_le_right n _
      have hidx : ((tp0 :: rem0).take n).length - 1 < (tp0 :: rem0).length := by
        omega
      have hidxL : ((tp0 :: rem0).take n).length - 1 <
          (chainRows db t ns (effBefore bcur)).length := by
        rw [hlen2]
        exact hidx
      have hgetlast : ((tp0 :: rem0).take n).getLast hne =
          (tp0 :: rem0).get ⟨((tp0 :: rem0).take n).length - 1, hidx⟩ := by
        rw [List.getLast_eq_get]
        exact List.get_take' (tp0 :: rem0)
      have hrel := (List.forall₂_iff_get.1 hf).2
        (((tp0 :: rem0).take n).length - 1) hidxL hidx
      have hcfg := decodeListTuple_ok_config hrel
      have hrowmem : (chainRows db t ns (effBefore bcur)).get
          ⟨((tp0 :: rem0).take n).length - 1, hidxL⟩ ∈
          chainRows db t ns (effBefore bcur) :=
        List.get_mem _ _ _
      have hrowid : ((chainRows db t ns (effBefore bcur)).get
          ⟨((tp0 :: rem0).take n).length - 1, hidxL⟩).checkpointId ≠ "" :=
        hids _ (mem_chainRows.1 hrowmem).1
      have heff : effBefore (some (((tp0 :: rem0).take n).getLast hne).config) =
          some (((chainRows db t ns (effBefore bcur)).get
            ⟨((tp0 :: rem0).take n).length - 1, hidxL⟩).checkpointId) := by
        rw [hgetlast, hcfg, effBefore_some]
        simp only [resolvedConfig]
        rw [truthy_some_of_ne hrowid]
        simp
      have h9 : ((tp0 :: rem0).take n).length - 1 + 1 =
          ((tp0 :: rem0).take n).length := by omega
      have hdrop := chainRows_cursor_drop hWF t ns (effBefore bcur)
        (((tp0 :: rem0).take n).length - 1) hidxL
      rw [h9] at hdrop
      have hchain : chainRows db t ns
          (some (((chainRows db t ns (effBefore bcur)).get
            ⟨((tp0 :: rem0).take n).length - 1, hidxL⟩).checkpointId)) =
          (chainRows db t ns (effBefore bcur)).drop
            (((tp0 :: rem0).take n).length) := hdrop
      have hrest : list serde db { threadId := some t, checkpointNs := some ns, checkpointId := none } none
          (some (((tp0 :: rem0).take n).getLast hne).config) =
          .ok ((tp0 :: rem0).drop (((tp0 :: rem0).take n).length)) := by
        rw [list_none_eq serde db ht ns]
        rw [heff, hchain]
        exact mapExcept_drop hremL _
      have hresttail : ((tp0 :: rem0).drop (((tp0 :: rem0).take n).length)).length ≤ fuel := by
        rw [List.length_drop]
        simp only [List.length_cons] at hlen ⊢
        omega
      have hih := ih (some (((tp0 :: rem0).take n).getLast hne).config)
        ((tp0 :: rem0).drop (((tp0 :: rem0).take n).length)) hrest hresttail
      rw [paginate_succ_full serde db _ n fuel bcur ((tp0 :: rem0).take n)
        (((tp0 :: rem0).take n).getLast hne) _ hpage hlast hih]
      have hsplit : (tp0 :: rem0).take n ++
          (tp0 :: rem0).drop (((tp0 :: rem0).take n).length) = tp0 :: rem0 := by
        rcases Nat.le_total n (tp0 :: rem0).length with h | h
        · rw [List.length_take, Nat.min_eq_left h, List.take_append_drop]
        · rw [List.take_all_of_le h, List.drop_length, List.append_nil]
      rw [hsplit]

/-- C6: `list` yields the `(thread, namespace)` chain in strictly descending
checkpoint-id order; with a truthy `before` cursor only checkpoints with id
strictly below the cursor are yielded; any positive page limit returns the
prefix of the unbounded sequence; and paginating (each `before` set to the
config of the last tuple seen) reproduces the unbounded sequence. -/
theorem c6_listChain_order_pagination (V : Type) (serde : Serde V) (db : DB)
    (t ns : String) (ht : t ≠ "") (hWF : db.WF)
    (hids : ∀ r ∈ db.checkpoints, r.checkpointId ≠ "")
    (bcfg : Option Config) (ts : List (CheckpointTuple V))
    (hts : list serde db { threadId := some t, checkpointNs := some ns, checkpointId := none } none bcfg = .ok ts) :
    ts.Pairwise (fun x y => (tupleId y).data < (tupleId x).data) ∧
    (∀ b, effBefore bcfg = some b → ∀ tp ∈ ts, (tupleId tp).data < b.data) ∧
    (∀ n, 0 < n →
      list serde db { threadId := some t, checkpointNs := some ns, checkpointId := none } (some n) bcfg = .ok (ts.take n)) ∧
    (∀ n, 0 < n → ∀ fuel, ts.length ≤ fuel →
      paginate serde db { threadId := some t, checkpointNs := some ns, checkpointId := none } n fuel bcfg = .ok ts) := by
  have hremL : mapExcept (decodeListTuple serde db)
      (chainRows db t ns (effBefore bcfg)) = .ok ts := by
    rw [list_none_eq serde db ht ns bcfg] at hts
    exact hts
  have hidmap := listTuples_map_id hremL
  refine ⟨?_, ?_, ?_, ?_⟩
  · have hstrict := strict_chainRows hWF t ns (effBefore bcfg)
    have h1 : List.Pairwise (fun u v : String => v.data < u.data)
        ((chainRows db t ns (effBefore bcfg)).map (fun r => r.checkpointId)) :=
      List.pairwise_map.2 hstrict
    rw [← hidmap] at h1
    exact List.pairwise_map.1 h1
  · intro b hb tp htp
    have hmem : tupleId tp ∈ ts.map tupleId := List.mem_map_of_mem _ htp
    rw [hidmap] at hmem
    obtain ⟨r, hrL, hrid⟩ := List.mem_map.1 hmem
    have hcond := (mem_chainRows.1 hrL).2.2.2
    rw [hb] at hcond
    simp only [beforeCond, decide_eq_true_eq] at hcond
    exact hrid ▸ hcond
  · intro n hn
    rw [list_limit_eq serde db ht ns bcfg n hn]
    exact mapExcept_take hremL n
  · intro n hn fuel hfuel
    exact paginate_eq_aux V serde db t ns ht hWF hids n hn fuel bcfg ts hts hfuel

/-- C6 witness: three checkpoints `c1 < c2 < c3`; the unbounded call yields
them newest first, a page of two is the prefix, and paginating with page size
one reproduces the full sequence. -/
theorem c6_listChain_order_pagination_witness :
    ([{ checkpoint := "cp3", config := resolvedConfig "t" "" "c3", metadata := "md3", parentConfig := none, pendingWrites := [] }, { checkpoint := "cp2", config := resolvedConfig "t" "" "c2", metadata := "md2", parentConfig := none, pendingWrites := [] }, { checkpoint := "cp1", config := resolvedConfig "t" "" "c1", metadata := "md1", parentConfig := none, pendingWrites := [] }] : List (CheckpointTuple String)).Pairwise
      (fun x y => (tupleId y).data < (tupleId x).data) ∧
    list strSerde { checkpoints := [{ threadId := "t", checkpointNs := "", checkpointId := "c1", parentCheckpointId := none, type := some "json", checkpoint := "cp1", metadata := some "md1" }, { threadId := "t", checkpointNs := "", checkpointId := "c2", parentCheckpointId := none, type := some "json", checkpoint := "cp2", metadata := some "md2" }, { threadId := "t", checkpointNs := "", checkpointId := "c3", parentCheckpointId := none, type := some "json", checkpoint := "cp3", metadata := some "md3" }], writes := [] } { threadId := some "t", checkpointNs := some "", checkpointId := none } (some 2) none =
      .ok (([{ checkpoint := "cp3", config := resolvedConfig "t" "" "c3", metadata := "md3", parentConfig := none, pendingWrites := [] }, { checkpoint := "cp2", config := resolvedConfig "t" "" "c2", metadata := "md2", parentConfig := none, pendingWrites := [] }, { checkpoint := "cp1", config := resolvedConfig "t" "" "c1", metadata := "md1", parentConfig := none, pendingWrites := [] }] : List (CheckpointTuple String)).take 2) ∧
    paginate strSerde { checkpoints := [{ threadId := "t", checkpointNs := "", checkpointId := "c1", parentCheckpointId := none, type := some "json", checkpoint := "cp1", metadata := some "md1" }, { threadId := "t", checkpointNs := "", checkpointId := "c2", parentCheckpointId := none, type := some "json", checkpoint := "cp2", metadata := some "md2" }, { threadId := "t", checkpointNs := "", checkpointId := "c3", parentCheckpointId := none, type := some "json", checkpoint := "cp3", metadata := some "md3" }], writes := [] } { threadId := some "t", checkpointNs := some "", checkpointId := none } 1 3 none =
      .ok ([{ checkpoint := "cp3", config := resolvedConfig "t" "" "c3", metadata := "md3", parentConfig := none, pendingWrites := [] }, { checkpoint := "cp2", config := resolvedConfig "t" "" "c2", metadata := "md2", parentConfig := none, pendingWrites := [] }, { checkpoint := "cp1", config := resolvedConfig "t" "" "c1", metadata := "md1", parentConfig := none, pendingWrites := [] }] : List (CheckpointTuple String)) := by
  have W := c6_listChain_order_pagination String strSerde { checkpoints := [{ threadId := "t", checkpointNs := "", checkpointId := "c1", parentCheckpointId := none, type := some "json", checkpoint := "cp1", metadata := some "md1" }, { threadId := "t", checkpointNs := "", checkpointId := "c2", parentCheckpointId := none, type := some "json", checkpoint := "cp2", metadata := some "md2" }, { threadId := "t", checkpointNs := "", checkpointId := "c3", parentCheckpointId := none, type := some "json", checkpoint := "cp3", metadata := some "md3" }], writes := [] }
    "t" "" (by decide) (by decide) (by decide) none [{ checkpoint := "cp3", config := resolvedConfig "t" "" "c3", metadata := "md3", parentConfig := none, pendingWrites := [] }, { checkpoint := "cp2", config := resolvedConfig "t" "" "c2", metadata := "md2", parentConfig := none, pendingWrites := [] }, { checkpoint := "cp1", config := resolvedConfig "t" "" "c1", metadata := "md1", parentConfig := none, pendingWrites := [] }] rfl
  exact ⟨W.1, W.2.2.1 2 (by decide), W.2.2.2 1 (by decide) 3 (by decide)⟩

end Palmframe
